import Mathlib

/-!
Shallow embedding of the serde-rusoto-dynamodb codec (src/ser.rs, src/de.rs,
src/result.rs) and proofs about its claims.

The wire type `AttributeValue` carries the seven optional fields used by the
codec: `bool`, `n` (decimal number text), `s` (string), `b` (bytes),
`null`, `l` (list), `m` (string-keyed map, modelled as an association list in
iteration order).  The external numeric stack (itoa / ryu / Rust's
`str::parse`) is modelled concretely for integers (plain decimal) and
abstractly for floats (a carrier type with a formatter and parser satisfying
the documented shortest-round-trip law).
-/

namespace SerRusoto

/-- Unified error type of src/result.rs: a structural message wrapper. -/
structure Error where
  message : String
deriving DecidableEq, Repr

/-- Constructor mirroring `Error::new` in src/result.rs. -/
def Error.new (message : String) : Error := ⟨message⟩

/-- The wire value exchanged with the store (rusoto `AttributeValue`),
restricted to the seven fields the codec reads and writes, in the order
bool / n / s / b / null / l / m.  Maps are association lists in hash-map
iteration order. -/
inductive AttributeValue : Type where
  | mk : Option Bool → Option String → Option String → Option (List Nat) →
      Option Bool → Option (List AttributeValue) →
      Option (List (String × AttributeValue)) → AttributeValue

/-- Projection of the `bool` field. -/
def AttributeValue.boolF : AttributeValue → Option Bool
  | .mk v _ _ _ _ _ _ => v

/-- Projection of the `n` (number text) field. -/
def AttributeValue.nF : AttributeValue → Option String
  | .mk _ v _ _ _ _ _ => v

/-- Projection of the `s` (string) field. -/
def AttributeValue.sF : AttributeValue → Option String
  | .mk _ _ v _ _ _ _ => v

/-- Projection of the `b` (bytes) field. -/
def AttributeValue.bF : AttributeValue → Option (List Nat)
  | .mk _ _ _ v _ _ _ => v

/-- Projection of the `null` field. -/
def AttributeValue.nullF : AttributeValue → Option Bool
  | .mk _ _ _ _ v _ _ => v

/-- Projection of the `l` (list) field. -/
def AttributeValue.lF : AttributeValue → Option (List AttributeValue)
  | .mk _ _ _ _ _ v _ => v

/-- Projection of the `m` (map) field. -/
def AttributeValue.mF : AttributeValue → Option (List (String × AttributeValue))
  | .mk _ _ _ _ _ _ v => v

/-- The all-absent wire value, `AttributeValue::default()`. -/
def AttributeValue.empty : AttributeValue := .mk none none none none none none none

/-- The `NULL: true` wire value produced by `serialize_unit` in src/ser.rs. -/
def AttributeValue.nullTrue : AttributeValue := .mk none none none none (some true) none none

-- Decimal integer formatting (model of the itoa formatter used in src/ser.rs)
-- and signed 64-bit parsing (model of Rust's str::parse::<i64> used in
-- src/de.rs).

/-- Character for a single decimal digit. -/
def digitChar (d : Nat) : Char := Char.ofNat (48 + d)

/-- Numeric value of a decimal digit character, `none` for non-digits. -/
def digitVal (c : Char) : Option Nat :=
  if 48 ≤ c.toNat ∧ c.toNat ≤ 57 then some (c.toNat - 48) else none

/-- Fuel-indexed most-significant-first digit expansion; 64 units of fuel
cover every magnitude up to 10^64, far beyond the 64-bit integers the
serializer formats. -/
def natCharsAux : Nat → Nat → List Char → List Char
  | 0, _, acc => acc
  | fuel + 1, n, acc =>
    if n = 0 then acc
    else natCharsAux fuel (n / 10) (digitChar (n % 10) :: acc)

/-- Decimal digit characters of a natural number, as itoa prints it. -/
def natChars (n : Nat) : List Char :=
  if n = 0 then ['0'] else natCharsAux 64 n []

/-- Modelled from the spec: decimal text via a fast integer-to-string
formatter (the itoa crate used by `serialize_int` in src/ser.rs, which is not
part of this repository).  Sign-prefixed decimal with no padding. -/
def fmtInt (k : Int) : String :=
  String.mk (if k < 0 then '-' :: natChars (-k).toNat else natChars k.toNat)

/-- Left-to-right accumulation of decimal digit characters. -/
def parseNatAux : List Char → Nat → Option Nat
  | [], acc => some acc
  | c :: cs, acc =>
    match digitVal c with
    | some d => parseNatAux cs (acc * 10 + d)
    | none => none

/-- Parse a non-empty all-digit character list as a natural number. -/
def parseNatChars : List Char → Option Nat
  | [] => none
  | c :: cs => parseNatAux (c :: cs) 0

/-- Modelled from the spec: the signed 64-bit integer parse attempted first
by `deserialize_any` in src/de.rs (Rust's `str::parse::<i64>`, which is not
part of this repository): an optional sign followed by decimal digits, with
an overflow check against the i64 range. -/
def parseI64Chars : List Char → Option Int
  | [] => none
  | c :: cs =>
    if c = '-' then
      (parseNatChars cs).bind fun v =>
        if v ≤ 2 ^ 63 then some (-(v : Int)) else none
    else if c = '+' then
      (parseNatChars cs).bind fun v =>
        if v < 2 ^ 63 then some ((v : Int)) else none
    else
      (parseNatChars (c :: cs)).bind fun v =>
        if v < 2 ^ 63 then some ((v : Int)) else none

/-- The signed 64-bit parse on a string, via its character data. -/
def parseI64 (str : String) : Option Int := parseI64Chars str.data

-- Source-value universe: the shapes the visitation protocol can describe,
-- mirroring the Serialize/Deserialize impls the codec is exercised with.

/-- The eight integer widths handled by `serialize_i8` .. `serialize_u64` in
src/ser.rs. -/
inductive IntWidth : Type where
  | i8 | i16 | i32 | i64 | u8 | u16 | u32 | u64
deriving DecidableEq, Repr

/-- Smallest value of an integer width. -/
def IntWidth.lo : IntWidth → Int
  | .i8 => -(2 ^ 7)
  | .i16 => -(2 ^ 15)
  | .i32 => -(2 ^ 31)
  | .i64 => -(2 ^ 63)
  | .u8 | .u16 | .u32 | .u64 => 0

/-- Largest value of an integer width. -/
def IntWidth.hi : IntWidth → Int
  | .i8 => 2 ^ 7 - 1
  | .i16 => 2 ^ 15 - 1
  | .i32 => 2 ^ 31 - 1
  | .i64 => 2 ^ 63 - 1
  | .u8 => 2 ^ 8 - 1
  | .u16 => 2 ^ 16 - 1
  | .u32 => 2 ^ 32 - 1
  | .u64 => 2 ^ 64 - 1

mutual

/-- A target shape known statically to the deserializer (the Deserialize
impl driving the visitation protocol). -/
inductive Shape : Type where
  | sBool
  | sInt (w : IntWidth)
  | sFloat
  | sChar
  | sStr
  | sBytes
  | sUnit
  | sOption (inner : Shape)
  | sSeq (elem : Shape)
  | sTuple (elems : List Shape)
  | sMap (value : Shape)
  | sStruct (fields : List (String × Shape))
  | sEnum (variants : List (String × VariantShape))

/-- The four payload kinds of a tagged-union variant. -/
inductive VariantShape : Type where
  | vsUnit
  | vsNewtype (sh : Shape)
  | vsTuple (elems : List Shape)
  | vsStruct (fields : List (String × Shape))

end

/-- An in-memory value of a supported shape, as presented to the serializer
through the visitation protocol.  `F` is the abstract carrier of 32/64-bit
float values (the ryu formatter and the f64 parser are external to the
repository and appear only through a format/parse pair). -/
inductive RustValue (F : Type) : Type where
  | vBool (bv : Bool)
  | vInt (w : IntWidth) (k : Int)
  | vFloat (x : F)
  | vChar (c : Char)
  | vStr (str : String)
  | vBytes (bs : List Nat)
  | vNone
  | vSome (v : RustValue F)
  | vSeq (vs : List (RustValue F))
  | vMap (entries : List (String × RustValue F))
  | vStruct (fields : List (String × RustValue F))
  | vUnit
  | vUnitVariant (tag : String)
  | vNewtypeVariant (tag : String) (v : RustValue F)
  | vTupleVariant (tag : String) (vs : List (RustValue F))
  | vStructVariant (tag : String) (fields : List (String × RustValue F))

-- Serializer (src/ser.rs).

/-- Hash-map insertion on the iteration-order association list: overwrite an
existing binding in place, append a fresh one. -/
def insertA (k : String) (v : AttributeValue) :
    List (String × AttributeValue) → List (String × AttributeValue)
  | [] => [(k, v)]
  | (k', v') :: rest => if k' = k then (k, v) :: rest else (k', v') :: insertA k v rest

/-- State of `AttributeValueMapSerializer` in src/ser.rs: the pending key and
the accumulated entries. -/
structure MapSerState where
  key : Option String
  values : List (String × AttributeValue)

/-- The `Default` state of the map serializer. -/
def MapSerState.init : MapSerState := ⟨none, []⟩

/-- `SerializeMap::serialize_key` from src/ser.rs: the key argument is given
here already serialized (the result of running the value serializer on it);
only an `Ok` result whose `s` field is populated is accepted. -/
def serializeKeyM (st : MapSerState) (keyResult : Except Error AttributeValue) :
    Except Error MapSerState :=
  match keyResult with
  | .ok (.mk _ _ (some sv) _ _ _ _) => .ok ⟨some sv, st.values⟩
  | _ => .error (Error.new "Key Must Be String")

/-- `SerializeMap::serialize_value` from src/ser.rs: requires a stored key
and a successfully serialized value; the stored key is not cleared. -/
def serializeValueM (st : MapSerState) (valueResult : Except Error AttributeValue) :
    Except Error MapSerState :=
  match st.key, valueResult with
  | some sv, .ok v => .ok ⟨some sv, insertA sv v st.values⟩
  | _, _ => .error (Error.new "Key Must Be Set and Value Must Be Serializable")

/-- `SerializeMap::end` from src/ser.rs: wrap the accumulated entries as the
`m` field of a wire value. -/
def mapSerEnd (st : MapSerState) : AttributeValue :=
  .mk none none none none none none (some st.values)

mutual

/-- `to_attribute_value` of src/ser.rs on the supported-value universe: one
case per `Serializer` method, producing the wire encoding of the table in
the ser.rs source (floats through the abstract formatter `fmtF`). -/
def serializeVal {F : Type} (fmtF : F → String) : RustValue F → Except Error AttributeValue
  | .vBool bv => .ok (.mk (some bv) none none none none none none)
  | .vInt _ k => .ok (.mk none (some (fmtInt k)) none none none none none)
  | .vFloat x => .ok (.mk none (some (fmtF x)) none none none none none)
  | .vChar c => .ok (.mk none none (some (String.mk [c])) none none none none)
  | .vStr str => .ok (.mk none none (some str) none none none none)
  | .vBytes bs => .ok (.mk none none none (some bs) none none none)
  | .vNone => .ok AttributeValue.nullTrue
  | .vSome v => serializeVal fmtF v
  | .vUnit => .ok AttributeValue.nullTrue
  | .vSeq vs =>
    match serializeList fmtF vs with
    | .ok avs => .ok (.mk none none none none none (some avs) none)
    | .error e => .error e
  | .vMap entries =>
    match serializeMapEntries fmtF entries MapSerState.init with
    | .ok st => .ok (mapSerEnd st)
    | .error e => .error e
  | .vStruct fields =>
    match serializeFields fmtF fields [] with
    | .ok fs => .ok (.mk none none none none none none (some fs))
    | .error e => .error e
  | .vUnitVariant t =>
    .ok (.mk none none none none none none (some [(t, AttributeValue.nullTrue)]))
  | .vNewtypeVariant t v =>
    match serializeVal fmtF v with
    | .ok av => .ok (.mk none none none none none none (some [(t, av)]))
    | .error e => .error e
  | .vTupleVariant t vs =>
    match serializeList fmtF vs with
    | .ok avs => .ok (.mk none none none none none none
        (some [(t, .mk none none none none none (some avs) none)]))
    | .error e => .error e
  | .vStructVariant t fields =>
    match serializeFields fmtF fields [] with
    | .ok fs => .ok (.mk none none none none none none
        (some [(t, .mk none none none none none none (some fs))]))
    | .error e => .error e

/-- Element-wise serialization of a seq / tuple / tuple-struct / tuple-variant
payload (`AttributeValueSeqTupleAndTupleStructSerializer`). -/
def serializeList {F : Type} (fmtF : F → String) :
    List (RustValue F) → Except Error (List AttributeValue)
  | [] => .ok []
  | v :: rest =>
    match serializeVal fmtF v with
    | .ok av =>
      match serializeList fmtF rest with
      | .ok avs => .ok (av :: avs)
      | .error e => .error e
    | .error e => .error e

/-- Map-entry serialization through the `AttributeValueMapSerializer` state
machine: each key (a string) is serialized by `serialize_str` and fed to
`serialize_key`, each value to `serialize_value`. -/
def serializeMapEntries {F : Type} (fmtF : F → String) :
    List (String × RustValue F) → MapSerState → Except Error MapSerState
  | [], st => .ok st
  | (k, v) :: rest, st =>
    match serializeKeyM st (.ok (.mk none none (some k) none none none none)) with
    | .ok st1 =>
      match serializeValueM st1 (serializeVal fmtF v) with
      | .ok st2 => serializeMapEntries fmtF rest st2
      | .error e => .error e
    | .error e => .error e

/-- Field serialization of a struct / struct-variant
(`AttributeValueStructSerializer`): insert each serialized field under its
name. -/
def serializeFields {F : Type} (fmtF : F → String) :
    List (String × RustValue F) → List (String × AttributeValue) →
      Except Error (List (String × AttributeValue))
  | [], acc => .ok acc
  | (k, v) :: rest, acc =>
    match serializeVal fmtF v with
    | .ok av => serializeFields fmtF rest (insertA k av acc)
    | .error e => .error e

end

-- Deserializer (src/de.rs).

/-- The visitor callback selected by `deserialize_any` in src/de.rs, with its
payload. -/
inductive AnyDispatch (F : Type) : Type where
  | visitBool (bv : Bool)
  | visitSeq (elems : List AttributeValue)
  | visitMap (entries : List (String × AttributeValue))
  | visitI64 (k : Int)
  | visitF64 (x : F)
  | visitUnit
  | visitStr (str : String)

/-- The numeric branch of `deserialize_any`: a signed 64-bit parse first, a
64-bit float parse (`parseF`) second, then the error. -/
def numberVisit {F : Type} (parseF : String → Option F) (nv : String) :
    Except Error (AnyDispatch F) :=
  match parseI64 nv with
  | some k => .ok (.visitI64 k)
  | none =>
    match parseF nv with
    | some x => .ok (.visitF64 x)
    | none => .error (Error.new "Numeric Value Expected")

/-- `deserialize_any` from src/de.rs: the match arms in source order —
bool, l, m, n, null, s — with the catch-all error. -/
def deserializeAnyDispatch {F : Type} (parseF : String → Option F) :
    AttributeValue → Except Error (AnyDispatch F)
  | .mk (some bv) _ _ _ _ _ _ => .ok (.visitBool bv)
  | .mk _ _ _ _ _ (some lv) _ => .ok (.visitSeq lv)
  | .mk _ _ _ _ _ _ (some mv) => .ok (.visitMap mv)
  | .mk _ (some nv) _ _ _ _ _ => numberVisit parseF nv
  | .mk _ _ _ _ (some _) _ _ => .ok .visitUnit
  | .mk _ _ (some sv) _ _ _ _ => .ok (.visitStr sv)
  | _ => .error (Error.new "Supported Value Expected")

/-- Self-describing dispatch as the spec words it: inspect which field is
populated in the fixed precedence boolean, list, map, numberString,
nullFlag, string; fail with Supported Value Expected when none is. -/
def specAnyDispatch {F : Type} (parseF : String → Option F) (av : AttributeValue) :
    Except Error (AnyDispatch F) :=
  if h : av.boolF.isSome then .ok (.visitBool (av.boolF.get h))
  else if h : av.lF.isSome then .ok (.visitSeq (av.lF.get h))
  else if h : av.mF.isSome then .ok (.visitMap (av.mF.get h))
  else if h : av.nF.isSome then
    match parseI64 (av.nF.get h) with
    | some k => .ok (.visitI64 k)
    | none =>
      match parseF (av.nF.get h) with
      | some x => .ok (.visitF64 x)
      | none => .error (Error.new "Numeric Value Expected")
  else if av.nullF.isSome then .ok .visitUnit
  else if h : av.sF.isSome then .ok (.visitStr (av.sF.get h))
  else .error (Error.new "Supported Value Expected")

/-- The branch taken by `deserialize_option` in src/de.rs: `visit_none`, or
`visit_some` handed the same wire value. -/
inductive OptionDispatch : Type where
  | visitNone
  | visitSome (same : AttributeValue)

/-- `deserialize_option` from src/de.rs: only a populated `null` field equal
to `true` yields the absent case. -/
def deserializeOptionDispatch : AttributeValue → OptionDispatch
  | .mk _ _ _ _ (some true) _ _ => .visitNone
  | av => .visitSome av

/-- `deserialize_char` from src/de.rs composed with the char visitor:
requires `s`, yields the first character, rejects the empty string. -/
def deserializeCharM : AttributeValue → Except Error Char
  | .mk _ _ (some cstr) _ _ _ _ =>
    match cstr.data with
    | [] => .error (Error.new "Non-Zero Length String Expected")
    | c :: _ => .ok c
  | _ => .error (Error.new "String Value Expected (Char)")

/-- `deserialize_bytes` / `deserialize_byte_buf` from src/de.rs composed with
the byte visitor: requires `b`. -/
def deserializeBytesM : AttributeValue → Except Error (List Nat)
  | .mk _ _ _ (some bs) _ _ _ => .ok bs
  | _ => .error (Error.new "Byte Vector Value Expected")

/-- `deserialize_enum` from src/de.rs: requires `m` and takes its first
key/value pair as (tag, payload wire value). -/
def deserializeEnumDispatch : AttributeValue → Except Error (String × AttributeValue)
  | .mk _ _ _ _ _ _ (some mv) =>
    match mv with
    | [] => .error (Error.new "Key/Value Expected")
    | (k, v) :: _ => .ok (k, v)
  | _ => .error (Error.new "Map Value Expected")

/-- `VariantAccess::unit_variant` from src/de.rs: the payload wire value must
carry `null = true`. -/
def unitVariantM : AttributeValue → Except Error Unit
  | .mk _ _ _ _ (some true) _ _ => .ok ()
  | _ => .error (Error.new "Null Value Expected")

/-- State of `AttributeValueMapDeserializer` in src/de.rs: the two cursors
over the same underlying mapping. -/
structure MapDeState where
  keys : List String
  values : List AttributeValue

/-- `AttributeValueMapDeserializer::new`: both cursors start at the same
mapping, in its iteration order. -/
def MapDeState.ofEntries (entries : List (String × AttributeValue)) : MapDeState :=
  ⟨entries.map Prod.fst, entries.map Prod.snd⟩

/-- `MapAccess::next_key_seed` from src/de.rs: pop the key cursor; `none`
signals exhaustion. -/
def nextKeyM (st : MapDeState) : Option String × MapDeState :=
  match st.keys with
  | [] => (none, st)
  | k :: rest => (some k, ⟨rest, st.values⟩)

/-- `MapAccess::next_value_seed` from src/de.rs: pop the value cursor, with
no check against the key cursor; an exhausted value cursor is the only
failure. -/
def nextValueM (st : MapDeState) : Except Error (AttributeValue × MapDeState) :=
  match st.values with
  | [] => .error (Error.new "Value Expected")
  | v :: rest => .ok (v, ⟨st.keys, rest⟩)

/-- The canonical alternating read protocol over the map cursors: one key,
then one value, until the key cursor is exhausted (see `readEntries_step`
for the formulation through `nextKeyM` / `nextValueM`). -/
def readEntries : MapDeState → Except Error (List (String × AttributeValue) × MapDeState)
  | ⟨[], vs⟩ => .ok ([], ⟨[], vs⟩)
  | ⟨_ :: _, []⟩ => .error (Error.new "Value Expected")
  | ⟨k :: krest, v :: vrest⟩ =>
    match readEntries ⟨krest, vrest⟩ with
    | .error e => .error e
    | .ok (rest, stFin) => .ok ((k, v) :: rest, stFin)

-- Modelled from the spec: error values produced by the external visitation
-- protocol itself (serde's standard visitors), surfaced through
-- `Error::custom` in src/result.rs.  Their message text is formatted by the
-- external library; only the fact of failure matters here.

/-- Modelled from the spec: a visitor callback rejected by the target shape
(serde's invalid-type error, bubbled through `Error::custom`). -/
def errInvalidType : Error := Error.new "invalid type"

/-- Modelled from the spec: an in-protocol integer that does not fit the
declared width (serde's invalid-value error). -/
def errOutOfRange : Error := Error.new "out of range integral type conversion attempted"

/-- Modelled from the spec: a fixed-arity sequence read that ran out of
elements (serde's invalid-length error). -/
def errInvalidLength : Error := Error.new "invalid length"

/-- Modelled from the spec: a declared record field with no matching key
(serde's missing-field error). -/
def errMissingField : Error := Error.new "missing field"

/-- Modelled from the spec: a variant tag matching no declared variant
(serde's unknown-variant error). -/
def errUnknownVariant : Error := Error.new "unknown variant"

/-- First-occurrence lookup in an iteration-order association list (hash-map
`get` by key). -/
def lookupA (nm : String) : List (String × AttributeValue) → Option AttributeValue
  | [] => none
  | (k, v) :: rest => if k = nm then some v else lookupA nm rest

mutual

/-- `from_attribute_value` of src/de.rs at a declared target shape: scalar
shapes go through `deserialize_any` (they are all in the
`forward_to_deserialize_any!` list) and apply the standard visitor of the
shape; char and bytes use their direct methods; option, enum and the
compound shapes follow the corresponding `Deserializer` methods and compound
readers, with the external derived visitors modelled from the spec
(visit-seq / visit-map loops, positional struct reads, tag matching). -/
def deserializeShape {F : Type} (parseF : String → Option F) (ofInt : Int → F) :
    Shape → AttributeValue → Except Error (RustValue F)
  | .sBool, av =>
    match deserializeAnyDispatch parseF av with
    | .ok (.visitBool bv) => .ok (.vBool bv)
    | .ok _ => .error errInvalidType
    | .error e => .error e
  | .sInt w, av =>
    match deserializeAnyDispatch parseF av with
    | .ok (.visitI64 k) =>
      if w.lo ≤ k ∧ k ≤ w.hi then .ok (.vInt w k) else .error errOutOfRange
    | .ok _ => .error errInvalidType
    | .error e => .error e
  | .sFloat, av =>
    match deserializeAnyDispatch parseF av with
    | .ok (.visitF64 x) => .ok (.vFloat x)
    | .ok (.visitI64 k) => .ok (.vFloat (ofInt k))
    | .ok _ => .error errInvalidType
    | .error e => .error e
  | .sStr, av =>
    match deserializeAnyDispatch parseF av with
    | .ok (.visitStr sv) => .ok (.vStr sv)
    | .ok _ => .error errInvalidType
    | .error e => .error e
  | .sUnit, av =>
    match deserializeAnyDispatch parseF av with
    | .ok .visitUnit => .ok .vUnit
    | .ok _ => .error errInvalidType
    | .error e => .error e
  | .sChar, av =>
    match deserializeCharM av with
    | .ok c => .ok (.vChar c)
    | .error e => .error e
  | .sBytes, av =>
    match deserializeBytesM av with
    | .ok bs => .ok (.vBytes bs)
    | .error e => .error e
  | .sOption inner, av =>
    match av with
    | .mk _ _ _ _ (some true) _ _ => .ok .vNone
    | _ =>
      match deserializeShape parseF ofInt inner av with
      | .ok v => .ok (.vSome v)
      | .error e => .error e
  | .sSeq esh, av =>
    match av with
    | .mk (some _) _ _ _ _ _ _ => .error errInvalidType
    | .mk _ _ _ _ _ (some lv) _ =>
      match deserializeList parseF ofInt esh lv with
      | .ok vs => .ok (.vSeq vs)
      | .error e => .error e
    | .mk _ _ _ _ _ _ (some _) => .error errInvalidType
    | .mk _ (some nv) _ _ _ _ _ =>
      match numberVisit parseF nv with
      | .ok _ => .error errInvalidType
      | .error e => .error e
    | .mk _ _ _ _ (some _) _ _ => .error errInvalidType
    | .mk _ _ (some _) _ _ _ _ => .error errInvalidType
    | _ => .error (Error.new "Supported Value Expected")
  | .sTuple shs, av =>
    match av with
    | .mk (some _) _ _ _ _ _ _ => .error errInvalidType
    | .mk _ _ _ _ _ (some lv) _ =>
      match deserializeTupleList parseF ofInt shs lv with
      | .ok vs => .ok (.vSeq vs)
      | .error e => .error e
    | .mk _ _ _ _ _ _ (some _) => .error errInvalidType
    | .mk _ (some nv) _ _ _ _ _ =>
      match numberVisit parseF nv with
      | .ok _ => .error errInvalidType
      | .error e => .error e
    | .mk _ _ _ _ (some _) _ _ => .error errInvalidType
    | .mk _ _ (some _) _ _ _ _ => .error errInvalidType
    | _ => .error (Error.new "Supported Value Expected")
  | .sMap vsh, av =>
    match av with
    | .mk (some _) _ _ _ _ _ _ => .error errInvalidType
    | .mk _ _ _ _ _ (some _) _ => .error errInvalidType
    | .mk _ _ _ _ _ _ (some mv) =>
      match deserializeMapValues parseF ofInt vsh mv with
      | .ok es => .ok (.vMap es)
      | .error e => .error e
    | .mk _ (some nv) _ _ _ _ _ =>
      match numberVisit parseF nv with
      | .ok _ => .error errInvalidType
      | .error e => .error e
    | .mk _ _ _ _ (some _) _ _ => .error errInvalidType
    | .mk _ _ (some _) _ _ _ _ => .error errInvalidType
    | _ => .error (Error.new "Supported Value Expected")
  | .sStruct shFields, av =>
    match av with
    | .mk (some _) _ _ _ _ _ _ => .error errInvalidType
    | .mk _ _ _ _ _ (some lv) _ =>
      match deserializeStructSeq parseF ofInt shFields lv with
      | .ok fs => .ok (.vStruct fs)
      | .error e => .error e
    | .mk _ _ _ _ _ _ (some mv) =>
      match deserializeRecFields parseF ofInt shFields mv with
      | .ok fs => .ok (.vStruct fs)
      | .error e => .error e
    | .mk _ (some nv) _ _ _ _ _ =>
      match numberVisit parseF nv with
      | .ok _ => .error errInvalidType
      | .error e => .error e
    | .mk _ _ _ _ (some _) _ _ => .error errInvalidType
    | .mk _ _ (some _) _ _ _ _ => .error errInvalidType
    | _ => .error (Error.new "Supported Value Expected")
  | .sEnum variants, av =>
    match deserializeEnumDispatch av with
    | .ok (tag, value) => deserializeVariants parseF ofInt variants tag value
    | .error e => .error e
termination_by s _ => (sizeOf s, 0)

/-- Element loop of the seq visitor over `AttributeValueSeqDeserializer`. -/
def deserializeList {F : Type} (parseF : String → Option F) (ofInt : Int → F) (esh : Shape) :
    List AttributeValue → Except Error (List (RustValue F))
  | [] => .ok []
  | a :: rest =>
    match deserializeShape parseF ofInt esh a with
    | .ok v =>
      match deserializeList parseF ofInt esh rest with
      | .ok vs => .ok (v :: vs)
      | .error e => .error e
    | .error e => .error e
termination_by avs => (sizeOf esh, avs.length + 1)

/-- Fixed-arity element loop of a tuple visitor: reads exactly one element
per declared position, fails early at exhaustion, ignores extra elements. -/
def deserializeTupleList {F : Type} (parseF : String → Option F) (ofInt : Int → F) :
    List Shape → List AttributeValue → Except Error (List (RustValue F))
  | [], _ => .ok []
  | _ :: _, [] => .error errInvalidLength
  | sh :: shrest, a :: arest =>
    match deserializeShape parseF ofInt sh a with
    | .ok v =>
      match deserializeTupleList parseF ofInt shrest arest with
      | .ok vs => .ok (v :: vs)
      | .error e => .error e
    | .error e => .error e
termination_by shs _ => (sizeOf shs, 0)

/-- Key/value loop of the map visitor over the two aligned cursors of
`AttributeValueMapDeserializer`: values decoded in iteration order. -/
def deserializeMapValues {F : Type} (parseF : String → Option F) (ofInt : Int → F) (vsh : Shape) :
    List (String × AttributeValue) → Except Error (List (String × RustValue F))
  | [] => .ok []
  | (k, a) :: rest =>
    match deserializeShape parseF ofInt vsh a with
    | .ok v =>
      match deserializeMapValues parseF ofInt vsh rest with
      | .ok es => .ok ((k, v) :: es)
      | .error e => .error e
    | .error e => .error e
termination_by es => (sizeOf vsh, es.length + 1)

/-- Modelled from the spec: named-field record reconstruction — each field
name declared by the target shape is matched to a key of the wire map and
its value decoded at the field's shape; a missing key is an error. -/
def deserializeRecFields {F : Type} (parseF : String → Option F) (ofInt : Int → F) :
    List (String × Shape) → List (String × AttributeValue) →
      Except Error (List (String × RustValue F))
  | [], _ => .ok []
  | (nm, sh) :: rest, entries =>
    match lookupA nm entries with
    | some a =>
      match deserializeShape parseF ofInt sh a with
      | .ok v =>
        match deserializeRecFields parseF ofInt rest entries with
        | .ok fs => .ok ((nm, v) :: fs)
        | .error e => .error e
      | .error e => .error e
    | none => .error errMissingField
termination_by fields _ => (sizeOf fields, 0)

/-- Modelled from the spec: the positional (visit-seq) read of a derived
record visitor — fields filled in declaration order from a wire list. -/
def deserializeStructSeq {F : Type} (parseF : String → Option F) (ofInt : Int → F) :
    List (String × Shape) → List AttributeValue →
      Except Error (List (String × RustValue F))
  | [], _ => .ok []
  | _ :: _, [] => .error errInvalidLength
  | (nm, sh) :: shrest, a :: arest =>
    match deserializeShape parseF ofInt sh a with
    | .ok v =>
      match deserializeStructSeq parseF ofInt shrest arest with
      | .ok fs => .ok ((nm, v) :: fs)
      | .error e => .error e
    | .error e => .error e
termination_by fields _ => (sizeOf fields, 0)

/-- Modelled from the spec: tag matching of a derived enum visitor — the tag
string read from the map key is compared against the declared variant names
in order. -/
def deserializeVariants {F : Type} (parseF : String → Option F) (ofInt : Int → F) :
    List (String × VariantShape) → String → AttributeValue →
      Except Error (RustValue F)
  | [], _, _ => .error errUnknownVariant
  | (nm, vs) :: rest, tag, value =>
    if nm = tag then deserializeVariantKind parseF ofInt tag vs value
    else deserializeVariants parseF ofInt rest tag value
termination_by variants _ _ => (sizeOf variants, 0)

/-- The `VariantAccess` impl of src/de.rs, per payload kind: unit requires
`null = true`, newtype recurses into the payload shape, tuple requires `l`,
struct requires `m`. -/
def deserializeVariantKind {F : Type} (parseF : String → Option F) (ofInt : Int → F)
    (tag : String) : VariantShape → AttributeValue → Except Error (RustValue F)
  | .vsUnit, value =>
    match unitVariantM value with
    | .ok _ => .ok (.vUnitVariant tag)
    | .error e => .error e
  | .vsNewtype sh, value =>
    match deserializeShape parseF ofInt sh value with
    | .ok v => .ok (.vNewtypeVariant tag v)
    | .error e => .error e
  | .vsTuple shs, value =>
    match value with
    | .mk _ _ _ _ _ (some lv) _ =>
      match deserializeTupleList parseF ofInt shs lv with
      | .ok vs => .ok (.vTupleVariant tag vs)
      | .error e => .error e
    | _ => .error (Error.new "List Value Expected")
  | .vsStruct fields, value =>
    match value with
    | .mk _ _ _ _ _ _ (some mv) =>
      match deserializeRecFields parseF ofInt fields mv with
      | .ok fs => .ok (.vStructVariant tag fs)
      | .error e => .error e
    | _ => .error (Error.new "Map Value Expected")
termination_by vs _ => (sizeOf vs, 0)

end

-- Typing of values against shapes, and the conditions under which a value
-- survives the decode(encode(v)) round trip.

/-- First-occurrence lookup of a variant tag among the declared variants. -/
def lookupVS (tag : String) : List (String × VariantShape) → Option VariantShape
  | [] => none
  | (nm, vs) :: rest => if nm = tag then some vs else lookupVS tag rest

/-- Distinctness of the keys of an association list (automatic for values
originating from a Rust HashMap or from struct field names). -/
def nodupKeys {α : Type} : List (String × α) → Bool
  | [] => true
  | (k, _) :: rest => (!(decide (k ∈ rest.map Prod.fst))) && nodupKeys rest

mutual

/-- The value `v` is of shape `sh`: integer leaves lie within their width,
map and struct keys are distinct, variant tags resolve to a declared variant
of the matching payload kind. -/
def hasShape {F : Type} : RustValue F → Shape → Bool
  | .vBool _, .sBool => true
  | .vInt w k, .sInt w' => decide (w = w') && decide (w.lo ≤ k) && decide (k ≤ w.hi)
  | .vFloat _, .sFloat => true
  | .vChar _, .sChar => true
  | .vStr _, .sStr => true
  | .vBytes _, .sBytes => true
  | .vUnit, .sUnit => true
  | .vNone, .sOption _ => true
  | .vSome v, .sOption inner => hasShape v inner
  | .vSeq vs, .sSeq esh => listHasShape vs esh
  | .vSeq vs, .sTuple shs => tupleHasShape vs shs
  | .vMap entries, .sMap vsh => nodupKeys entries && entriesHaveShape entries vsh
  | .vStruct fields, .sStruct shf => nodupKeys fields && fieldsHaveShape fields shf
  | .vUnitVariant t, .sEnum variants =>
    match lookupVS t variants with
    | some .vsUnit => true
    | _ => false
  | .vNewtypeVariant t v, .sEnum variants =>
    match lookupVS t variants with
    | some (.vsNewtype sh) => hasShape v sh
    | _ => false
  | .vTupleVariant t vs, .sEnum variants =>
    match lookupVS t variants with
    | some (.vsTuple shs) => tupleHasShape vs shs
    | _ => false
  | .vStructVariant t fields, .sEnum variants =>
    match lookupVS t variants with
    | some (.vsStruct shf) => nodupKeys fields && fieldsHaveShape fields shf
    | _ => false
  | _, _ => false

/-- Every element of a homogeneous sequence has the element shape. -/
def listHasShape {F : Type} : List (RustValue F) → Shape → Bool
  | [], _ => true
  | v :: rest, esh => hasShape v esh && listHasShape rest esh

/-- Positional typing of a tuple payload: same arity, pointwise shapes. -/
def tupleHasShape {F : Type} : List (RustValue F) → List Shape → Bool
  | [], [] => true
  | v :: vr, sh :: shr => hasShape v sh && tupleHasShape vr shr
  | _, _ => false

/-- Every value of a string-keyed map has the value shape. -/
def entriesHaveShape {F : Type} : List (String × RustValue F) → Shape → Bool
  | [], _ => true
  | (_, v) :: rest, vsh => hasShape v vsh && entriesHaveShape rest vsh

/-- Named-field typing of a record: same field names in declaration order,
pointwise shapes. -/
def fieldsHaveShape {F : Type} : List (String × RustValue F) → List (String × Shape) → Bool
  | [], [] => true
  | (k, v) :: vr, (nm, sh) :: shr => decide (k = nm) && hasShape v sh && fieldsHaveShape vr shr
  | _, _ => false

end

/-- The value's wire encoding is the bare `NULL: true` flag (absent optional,
unit, or a present-optional chain over one of these); such an encoding is
re-read as the absent optional. -/
def encodesNull {F : Type} : RustValue F → Bool
  | .vNone => true
  | .vUnit => true
  | .vSome v => encodesNull v
  | _ => false

mutual

/-- Round-trip side conditions forced by the code: every integer leaf must
fit in a signed 64-bit parse, and a present optional must not directly wrap
a value whose encoding is the bare null flag. -/
def rtOK {F : Type} : RustValue F → Bool
  | .vInt _ k => decide (k < 2 ^ 63)
  | .vSome v => !encodesNull v && rtOK v
  | .vSeq vs => rtList vs
  | .vMap es => rtEntries es
  | .vStruct fs => rtEntries fs
  | .vNewtypeVariant _ v => rtOK v
  | .vTupleVariant _ vs => rtList vs
  | .vStructVariant _ fs => rtEntries fs
  | _ => true

/-- Round-trip side conditions, over the elements of a sequence. -/
def rtList {F : Type} : List (RustValue F) → Bool
  | [] => true
  | v :: rest => rtOK v && rtList rest

/-- Round-trip side conditions, over the values of an association list. -/
def rtEntries {F : Type} : List (String × RustValue F) → Bool
  | [] => true
  | (_, v) :: rest => rtOK v && rtEntries rest

end

/-- Whether an already-serialized map key is a wire string (the only key
result `serialize_key` accepts). -/
def keyResultIsString : Except Error AttributeValue → Bool
  | .ok av => av.sF.isSome
  | .error _ => false

-- Relations tying a value, its wire encoding, and its decoding at a shape.

/-- `av` is the successful encoding of `v`, and decoding `av` at `sh`
restores `v`. -/
def EncodesTo {F : Type} (fmtF : F → String) (parseF : String → Option F) (ofInt : Int → F)
    (sh : Shape) (v : RustValue F) (av : AttributeValue) : Prop :=
  serializeVal fmtF v = .ok av ∧ deserializeShape parseF ofInt sh av = .ok v

/-- Element-wise `EncodesTo` at a fixed element shape. -/
def ListEnc {F : Type} (fmtF : F → String) (parseF : String → Option F) (ofInt : Int → F)
    (esh : Shape) : List (RustValue F) → List AttributeValue → Prop
  | [], [] => True
  | v :: vr, a :: ar => EncodesTo fmtF parseF ofInt esh v a ∧ ListEnc fmtF parseF ofInt esh vr ar
  | _, _ => False

/-- Position-wise `EncodesTo` at the tuple's per-position shapes. -/
def TupleEnc {F : Type} (fmtF : F → String) (parseF : String → Option F) (ofInt : Int → F) :
    List Shape → List (RustValue F) → List AttributeValue → Prop
  | [], [], [] => True
  | sh :: shr, v :: vr, a :: ar =>
    EncodesTo fmtF parseF ofInt sh v a ∧ TupleEnc fmtF parseF ofInt shr vr ar
  | _, _, _ => False

/-- Entry-wise `EncodesTo` of a string-keyed map at the value shape, with
matching keys. -/
def EntriesEnc {F : Type} (fmtF : F → String) (parseF : String → Option F) (ofInt : Int → F)
    (vsh : Shape) : List (String × RustValue F) → List (String × AttributeValue) → Prop
  | [], [] => True
  | (k, v) :: er, (k2, a) :: ar =>
    k2 = k ∧ EncodesTo fmtF parseF ofInt vsh v a ∧ EntriesEnc fmtF parseF ofInt vsh er ar
  | _, _ => False

/-- Field-wise `EncodesTo` of a named-field record at the declared field
shapes, with matching names in declaration order. -/
def FieldsEnc {F : Type} (fmtF : F → String) (parseF : String → Option F) (ofInt : Int → F) :
    List (String × Shape) → List (String × RustValue F) → List (String × AttributeValue) → Prop
  | [], [], [] => True
  | (nm, sh) :: shr, (k, v) :: fr, (k2, a) :: ar =>
    k = nm ∧ k2 = nm ∧ EncodesTo fmtF parseF ofInt sh v a ∧
      FieldsEnc fmtF parseF ofInt shr fr ar
  | _, _, _ => False

-- Round-trip facts about the decimal formatter and parser.

theorem digitVal_digitChar {d : Nat} (hd : d < 10) : digitVal (digitChar d) = some d := by
  interval_cases d <;> decide

theorem natCharsAux_eq_digits (fuel : Nat) :
    ∀ n acc, n < 10 ^ fuel →
      natCharsAux fuel n acc = ((Nat.digits 10 n).map digitChar).reverse ++ acc := by
  induction fuel with
  | zero =>
    intro n acc hn
    simp only [pow_zero, Nat.lt_one_iff] at hn
    subst hn
    simp [natCharsAux]
  | succ fuel ih =>
    intro n acc hn
    by_cases h0 : n = 0
    · subst h0; simp [natCharsAux]
    · rw [natCharsAux, if_neg h0]
      have hdiv : n / 10 < 10 ^ fuel := by
        rw [Nat.div_lt_iff_lt_mul (by norm_num)]
        calc n < 10 ^ (fuel + 1) := hn
          _ = 10 ^ fuel * 10 := by ring
      rw [ih (n / 10) _ hdiv]
      rw [Nat.digits_def' (by norm_num : (1 : ℕ) < 10) (Nat.pos_of_ne_zero h0)]
      simp

theorem parseNatAux_digits :
    ∀ bs : List Nat, (∀ d ∈ bs, d < 10) → ∀ acc,
      parseNatAux (bs.map digitChar) acc = some (bs.foldl (fun a d => a * 10 + d) acc) := by
  intro bs
  induction bs with
  | nil => intro _ acc; simp [parseNatAux]
  | cons d rest ih =>
    intro hlt acc
    have hd : d < 10 := hlt d (List.mem_cons_self d rest)
    simp only [List.map_cons, parseNatAux, digitVal_digitChar hd]
    rw [ih (fun x hx => hlt x (List.mem_cons_of_mem d hx))]
    simp [List.foldl_cons]

theorem foldr_eq_ofDigits :
    ∀ ds : List Nat, ds.foldr (fun d a => a * 10 + d) 0 = Nat.ofDigits 10 ds := by
  intro ds
  induction ds with
  | nil => simp [Nat.ofDigits]
  | cons d rest ih =>
    rw [List.foldr_cons, ih, Nat.ofDigits_cons]
    ring

theorem parseNatChars_natChars (n : Nat) (hn : n < 10 ^ 64) :
    parseNatChars (natChars n) = some n := by
  by_cases h0 : n = 0
  · subst h0; decide
  · rw [natChars, if_neg h0]
    rw [natCharsAux_eq_digits 64 n [] hn]
    have hne : Nat.digits 10 n ≠ [] := Nat.digits_ne_nil_iff_ne_zero.mpr h0
    have hmap : ((Nat.digits 10 n).map digitChar).reverse ++ [] =
        ((Nat.digits 10 n).reverse).map digitChar := by
      simp [List.map_reverse]
    rw [hmap]
    have hlt : ∀ d ∈ (Nat.digits 10 n).reverse, d < 10 := by
      intro d hd
      exact Nat.digits_lt_base (by norm_num) (List.mem_reverse.mp hd)
    obtain ⟨d, ds, hds⟩ : ∃ d ds, (Nat.digits 10 n).reverse = d :: ds := by
      rcases hrev : (Nat.digits 10 n).reverse with _ | ⟨d, ds⟩
      · exact absurd (by simpa using congrArg List.reverse hrev) hne
      · exact ⟨d, ds, rfl⟩
    rw [hds]
    rw [show (d :: ds).map digitChar = ((d :: ds).map digitChar : List Char) from rfl]
    have : parseNatChars ((d :: ds).map digitChar) =
        parseNatAux ((d :: ds).map digitChar) 0 := by
      simp [parseNatChars]
    rw [this, parseNatAux_digits (d :: ds) (hds ▸ hlt) 0]
    have hfold : (d :: ds).foldl (fun a x => a * 10 + x) 0 = n := by
      have h1 : (d :: ds).foldl (fun a x => a * 10 + x) 0 =
          ((Nat.digits 10 n).reverse).foldl (fun a x => a * 10 + x) 0 := by rw [hds]
      rw [h1, List.foldl_reverse]
      have h2 : (Nat.digits 10 n).foldr (fun x a => a * 10 + x) 0 =
          Nat.ofDigits 10 (Nat.digits 10 n) := by
        simpa using foldr_eq_ofDigits (Nat.digits 10 n)
      simpa [h2] using congrArg id (Nat.ofDigits_digits 10 n)
    rw [hfold]

theorem natChars_head (n : Nat) (hn : n < 10 ^ 64) :
    ∃ d cs, natChars n = digitChar d :: cs ∧ d < 10 := by
  by_cases h0 : n = 0
  · exact ⟨0, [], by rw [h0]; decide, by norm_num⟩
  · have h1 : natChars n = ((Nat.digits 10 n).reverse).map digitChar := by
      rw [natChars, if_neg h0, natCharsAux_eq_digits 64 n [] hn]
      simp [List.map_reverse]
    have hne : (Nat.digits 10 n).reverse ≠ [] := by
      simp [Nat.digits_ne_nil_iff_ne_zero.mpr h0]
    rcases hrev : (Nat.digits 10 n).reverse with _ | ⟨d, ds⟩
    · exact absurd hrev hne
    · refine ⟨d, ds.map digitChar, by rw [h1, hrev]; rfl, ?_⟩
      exact Nat.digits_lt_base (by norm_num) (List.mem_reverse.mp (hrev ▸ List.mem_cons_self d ds))

theorem digitChar_ne_sign {d : Nat} (hd : d < 10) :
    digitChar d ≠ '-' ∧ digitChar d ≠ '+' := by
  interval_cases d <;> exact ⟨by decide, by decide⟩

theorem parseI64_fmtInt (k : Int) (hlo : -(2 ^ 63) ≤ k) (hhi : k < 2 ^ 63) :
    parseI64 (fmtInt k) = some k := by
  by_cases hneg : k < 0
  · have hm : (-k).toNat ≤ 2 ^ 63 := by omega
    have hm64 : (-k).toNat < 10 ^ 64 := by
      have : (2 : ℕ) ^ 63 < 10 ^ 64 := by norm_num
      omega
    rw [fmtInt, if_pos hneg]
    show parseI64Chars ('-' :: natChars (-k).toNat) = some k
    rw [parseI64Chars]
    simp only [if_pos rfl]
    rw [parseNatChars_natChars _ hm64]
    simp only [Option.some_bind, if_pos hm]
    rw [Int.toNat_of_nonneg (by omega : (0 : Int) ≤ -k), neg_neg]
    simp
  · have hk : 0 ≤ k := by omega
    have hm : k.toNat < 2 ^ 63 := by omega
    have hm64 : k.toNat < 10 ^ 64 := by
      have : (2 : ℕ) ^ 63 < 10 ^ 64 := by norm_num
      omega
    rw [fmtInt, if_neg hneg]
    obtain ⟨d, cs, hcs, hd⟩ := natChars_head k.toNat hm64
    show parseI64Chars (natChars k.toNat) = some k
    rw [hcs, parseI64Chars]
    rw [if_neg (digitChar_ne_sign hd).1, if_neg (digitChar_ne_sign hd).2]
    rw [← hcs, parseNatChars_natChars _ hm64]
    simp only [Option.some_bind, if_pos hm]
    congr 1
    omega


/-- The protocol unfolds as: pop the key cursor; at exhaustion stop, else pop
the value cursor and recurse. -/
theorem readEntries_step (st : MapDeState) :
    readEntries st =
      match nextKeyM st with
      | (none, st') => .ok ([], st')
      | (some k, st') =>
        match nextValueM st' with
        | .error e => .error e
        | .ok (v, st'') =>
          match readEntries st'' with
          | .error e => .error e
          | .ok (rest, stFin) => .ok ((k, v) :: rest, stFin) := by
  rcases st with ⟨ks, vs⟩
  cases ks with
  | nil => simp [readEntries, nextKeyM]
  | cons k krest =>
    cases vs with
    | nil => simp [readEntries, nextKeyM, nextValueM]
    | cons v vrest => simp [readEntries, nextKeyM, nextValueM]


-- Association-list facts shared by the serializer state machine proofs.

theorem lookupA_insertA_self (l : List (String × AttributeValue)) (k : String)
    (v : AttributeValue) : lookupA k (insertA k v l) = some v := by
  induction l with
  | nil => simp [insertA, lookupA]
  | cons e rest ih =>
    rcases e with ⟨k', v'⟩
    by_cases hk : k' = k
    · subst hk; simp [insertA, lookupA]
    · simp [insertA, lookupA, hk, ih]

theorem insertA_fresh (l : List (String × AttributeValue)) (k : String) (v : AttributeValue)
    (hk : ¬ k ∈ l.map Prod.fst) : insertA k v l = l ++ [(k, v)] := by
  induction l with
  | nil => simp [insertA]
  | cons e rest ih =>
    rcases e with ⟨k', v'⟩
    simp only [List.map_cons, List.mem_cons] at hk
    push_neg at hk
    have hne : ¬ k' = k := fun h => hk.1 h.symm
    simp [insertA, hne, ih hk.2]

-- C2: self-describing dispatch.

/-- C2: `deserialize_any` inspects the populated field in the fixed
precedence boolean, list, map, numberString, nullFlag, string and invokes
exactly the corresponding visitor callback; an all-absent value fails with
Supported Value Expected; the numberString branch tries a signed 64-bit
parse, then a 64-bit float parse, then fails with Numeric Value Expected. -/
theorem any_dispatch_matches_spec {F : Type} (parseF : String → Option F)
    (av : AttributeValue) :
    deserializeAnyDispatch parseF av = specAnyDispatch parseF av := by
  rcases av with ⟨b1, n1, s1, by1, nu1, l1, m1⟩
  rcases b1 with _ | bv <;> rcases l1 with _ | lv <;> rcases m1 with _ | mv <;>
    rcases n1 with _ | nv <;> rcases nu1 with _ | nuv <;> rcases s1 with _ | sv <;>
      simp [deserializeAnyDispatch, specAnyDispatch, numberVisit, AttributeValue.boolF,
        AttributeValue.lF, AttributeValue.mF, AttributeValue.nF, AttributeValue.nullF,
        AttributeValue.sF]

-- C4: option decoding.

/-- C4: decoding an optional yields the absent case exactly when the
`null` field is populated with `true`; in every other case (including
`null = some false`) the present case recurses into the same wire value. -/
theorem option_dispatch_iff_null_true (av : AttributeValue) :
    deserializeOptionDispatch av =
      if av.nullF = some true then OptionDispatch.visitNone
      else OptionDispatch.visitSome av := by
  rcases av with ⟨b1, n1, s1, by1, nu1, l1, m1⟩
  rcases nu1 with _ | nuv
  · simp [deserializeOptionDispatch, AttributeValue.nullF]
  · cases nuv <;> simp [deserializeOptionDispatch, AttributeValue.nullF]

-- C5: character decoding.

/-- C5: decoding a character requires the `s` field; a non-empty string
yields its first character (longer strings are not rejected), the empty
string fails with Non-Zero Length String Expected. -/
theorem char_decode_first_char (av : AttributeValue) :
    (∀ str : String, av.sF = some str →
      deserializeCharM av =
        match str.data with
        | [] => .error (Error.new "Non-Zero Length String Expected")
        | c :: _ => .ok c) ∧
    (av.sF = none →
      deserializeCharM av = .error (Error.new "String Value Expected (Char)")) := by
  rcases av with ⟨b1, n1, s1, by1, nu1, l1, m1⟩
  constructor
  · intro str hstr
    rcases s1 with _ | sv
    · simp [AttributeValue.sF] at hstr
    · simp only [AttributeValue.sF, Option.some.injEq] at hstr
      subst hstr
      simp [deserializeCharM]
  · intro hs
    rcases s1 with _ | sv
    · simp [deserializeCharM]
    · simp [AttributeValue.sF] at hs

/-- Witness for C5 at a two-character string (first character wins) and at
the empty wire value. -/
theorem char_decode_first_char_witness :
    deserializeCharM (.mk none none (some (String.mk ['a', 'b'])) none none none none) =
      .ok 'a' ∧
    deserializeCharM AttributeValue.empty =
      .error (Error.new "String Value Expected (Char)") := by
  constructor
  · have h := (char_decode_first_char
      (.mk none none (some (String.mk ['a', 'b'])) none none none none)).1
      (String.mk ['a', 'b']) rfl
    simpa using h
  · exact (char_decode_first_char AttributeValue.empty).2 rfl

-- C6: map serializer contract.

/-- C6: a key whose serialization is not a wire string is rejected with Key
Must Be String, and a value written with no stored key is rejected with Key
Must Be Set and Value Must Be Serializable. -/
theorem map_serializer_contract :
    (∀ (st : MapSerState) (kr : Except Error AttributeValue),
      keyResultIsString kr = false →
      serializeKeyM st kr = .error (Error.new "Key Must Be String")) ∧
    (∀ (st : MapSerState) (vr : Except Error AttributeValue), st.key = none →
      serializeValueM st vr =
        .error (Error.new "Key Must Be Set and Value Must Be Serializable")) := by
  constructor
  · intro st kr hkr
    cases kr with
    | error e => simp [serializeKeyM]
    | ok av =>
      rcases av with ⟨b1, n1, s1, by1, nu1, l1, m1⟩
      rcases s1 with _ | sv
      · simp [serializeKeyM]
      · simp [keyResultIsString, AttributeValue.sF] at hkr
  · intro st vr hk
    rcases st with ⟨key, values⟩
    simp only at hk
    subst hk
    cases vr <;> simp [serializeValueM]

/-- Witness for C6: a boolean key and a fresh (keyless) map serializer. -/
theorem map_serializer_contract_witness :
    serializeKeyM MapSerState.init (.ok (.mk (some true) none none none none none none)) =
      .error (Error.new "Key Must Be String") ∧
    serializeValueM MapSerState.init (.ok AttributeValue.nullTrue) =
      .error (Error.new "Key Must Be Set and Value Must Be Serializable") := by
  constructor
  · exact map_serializer_contract.1 MapSerState.init
      (.ok (.mk (some true) none none none none none none)) rfl
  · exact map_serializer_contract.2 MapSerState.init (.ok AttributeValue.nullTrue) rfl

-- C7: map cursors.

/-- C7 counterexample: on a one-entry map, requesting a value with no prior
key request succeeds (returning the first value) instead of failing with
Value Expected as claimed. -/
theorem value_before_key_succeeds :
    nextValueM (MapDeState.ofEntries [("k", AttributeValue.nullTrue)]) =
      .ok (AttributeValue.nullTrue, ⟨["k"], []⟩) := rfl

/-- C7 (amended): the two cursors over the same mapping stay aligned — the
alternating key/value protocol reproduces exactly the underlying entries,
exhausting both cursors together — and a value request once the value
cursor is exhausted (more value requests than entries) fails with Value
Expected; a value request ahead of the key cursor does not fail. -/
theorem map_cursors_aligned :
    (∀ entries : List (String × AttributeValue),
      readEntries (MapDeState.ofEntries entries) = .ok (entries, ⟨[], []⟩)) ∧
    (∀ st : MapDeState, st.values = [] →
      nextValueM st = .error (Error.new "Value Expected")) := by
  constructor
  · intro entries
    induction entries with
    | nil => simp [MapDeState.ofEntries, readEntries]
    | cons e rest ih =>
      rcases e with ⟨k, v⟩
      simp only [MapDeState.ofEntries] at ih ⊢
      simp only [List.map_cons]
      simp only [readEntries, ih]
  · intro st hst
    rcases st with ⟨ks, vs⟩
    simp only at hst
    subst hst
    simp [nextValueM]

/-- Witness for C7 (amended): a concrete two-entry map read to exhaustion,
and an exhausted cursor state. -/
theorem map_cursors_aligned_witness :
    readEntries (MapDeState.ofEntries
      [("a", AttributeValue.nullTrue), ("b", AttributeValue.empty)]) =
      .ok ([("a", AttributeValue.nullTrue), ("b", AttributeValue.empty)], ⟨[], []⟩) ∧
    nextValueM ⟨["a"], []⟩ = .error (Error.new "Value Expected") := by
  constructor
  · exact map_cursors_aligned.1 [("a", AttributeValue.nullTrue), ("b", AttributeValue.empty)]
  · exact map_cursors_aligned.2 ⟨["a"], []⟩ rfl

-- C8: unit variant convention.

/-- C8: a unit variant with tag `t` serializes as the single-entry map from
`t` to the `null = true` wire value, and unit-variant decoding accepts
exactly a payload with `null = true`, failing with Null Value Expected
otherwise. -/
theorem unit_variant_convention {F : Type} (fmtF : F → String) :
    (∀ t : String, serializeVal fmtF (RustValue.vUnitVariant t) =
      .ok (.mk none none none none none none (some [(t, AttributeValue.nullTrue)]))) ∧
    (∀ av : AttributeValue, unitVariantM av = .ok () ↔ av.nullF = some true) ∧
    (∀ av : AttributeValue, av.nullF ≠ some true →
      unitVariantM av = .error (Error.new "Null Value Expected")) := by
  refine ⟨fun t => by simp [serializeVal], ?_, ?_⟩
  · intro av
    rcases av with ⟨b1, n1, s1, by1, nu1, l1, m1⟩
    rcases nu1 with _ | nuv
    · simp [unitVariantM, AttributeValue.nullF]
    · cases nuv <;> simp [unitVariantM, AttributeValue.nullF]
  · intro av hav
    rcases av with ⟨b1, n1, s1, by1, nu1, l1, m1⟩
    rcases nu1 with _ | nuv
    · simp [unitVariantM]
    · cases nuv
      · simp [unitVariantM]
      · simp [AttributeValue.nullF] at hav

/-- Witness for C8: the concrete tag "T", an accepted payload and a
rejected `null = false` payload. -/
theorem unit_variant_convention_witness :
    serializeVal (fun _ : Unit => "") (RustValue.vUnitVariant "T") =
      .ok (.mk none none none none none none (some [("T", AttributeValue.nullTrue)])) ∧
    unitVariantM AttributeValue.nullTrue = .ok () ∧
    unitVariantM (.mk none none none none (some false) none none) =
      .error (Error.new "Null Value Expected") := by
  refine ⟨(unit_variant_convention (fun _ : Unit => "")).1 "T", ?_, ?_⟩
  · exact ((unit_variant_convention (fun _ : Unit => "")).2.1 AttributeValue.nullTrue).mpr rfl
  · exact (unit_variant_convention (fun _ : Unit => "")).2.2
      (.mk none none none none (some false) none none) (by simp [AttributeValue.nullF])

-- C9: zero-entry variant map.

/-- C9: decoding a wire value whose `m` field is a zero-entry mapping as a
tagged union fails with Key/Value Expected. -/
theorem enum_on_empty_map {F : Type} (parseF : String → Option F) (ofInt : Int → F)
    (variants : List (String × VariantShape)) (av : AttributeValue)
    (h : av.mF = some []) :
    deserializeShape parseF ofInt (Shape.sEnum variants) av =
      .error (Error.new "Key/Value Expected") := by
  rcases av with ⟨b1, n1, s1, by1, nu1, l1, m1⟩
  simp only [AttributeValue.mF] at h
  subst h
  simp [deserializeShape, deserializeEnumDispatch]

/-- Witness for C9: the wire value carrying exactly an empty map. -/
theorem enum_on_empty_map_witness :
    deserializeShape (fun _ : String => (none : Option Unit)) (fun _ => ())
      (Shape.sEnum []) (.mk none none none none none none (some [])) =
      .error (Error.new "Key/Value Expected") :=
  enum_on_empty_map (fun _ : String => (none : Option Unit)) (fun _ => ()) []
    (.mk none none none none none none (some [])) rfl

-- C10: the stored key is not cleared.

/-- C10: after a successful `serialize_key`, `serialize_value` inserts under
the stored key and leaves it in place, so a second `serialize_value` with no
intervening `serialize_key` succeeds and overwrites the entry under the
previous key. -/
theorem map_serializer_key_persists (st : MapSerState) (k : String)
    (v1 v2 : AttributeValue) (hk : st.key = some k) :
    serializeValueM st (.ok v1) = .ok ⟨some k, insertA k v1 st.values⟩ ∧
    serializeValueM ⟨some k, insertA k v1 st.values⟩ (.ok v2) =
      .ok ⟨some k, insertA k v2 (insertA k v1 st.values)⟩ ∧
    lookupA k (insertA k v2 (insertA k v1 st.values)) = some v2 := by
  refine ⟨?_, by simp [serializeValueM], lookupA_insertA_self _ _ _⟩
  rcases st with ⟨key, values⟩
  simp only at hk
  subst hk
  simp [serializeValueM]

/-- Witness for C10: two writes under the key "k" with no second
`serialize_key`; the entry holds the second value. -/
theorem map_serializer_key_persists_witness :
    serializeValueM ⟨some "k", []⟩ (.ok AttributeValue.nullTrue) =
      .ok ⟨some "k", [("k", AttributeValue.nullTrue)]⟩ ∧
    serializeValueM ⟨some "k", [("k", AttributeValue.nullTrue)]⟩ (.ok AttributeValue.empty) =
      .ok ⟨some "k", [("k", AttributeValue.empty)]⟩ ∧
    lookupA "k" [("k", AttributeValue.empty)] = some AttributeValue.empty := by
  have h := map_serializer_key_persists ⟨some "k", []⟩ "k"
    AttributeValue.nullTrue AttributeValue.empty rfl
  simpa [insertA, lookupA] using h

-- C3: shape-directed dispatch messages.

/-- C3 counterexample: declared string, numeric and boolean targets applied
to the all-absent wire value all fail with the generic self-describing
message Supported Value Expected — there is no direct field requirement with
a shape-specific message such as String Value Expected for these shapes. -/
theorem empty_value_generic_error_across_shapes :
    deserializeShape (fun _ : String => (none : Option Unit)) (fun _ => ())
      Shape.sStr AttributeValue.empty =
      .error (Error.new "Supported Value Expected") ∧
    deserializeShape (fun _ : String => (none : Option Unit)) (fun _ => ())
      (Shape.sInt IntWidth.i64) AttributeValue.empty =
      .error (Error.new "Supported Value Expected") ∧
    deserializeShape (fun _ : String => (none : Option Unit)) (fun _ => ())
      Shape.sBool AttributeValue.empty =
      .error (Error.new "Supported Value Expected") ∧
    Error.new "Supported Value Expected" ≠ Error.new "String Value Expected" := by
  refine ⟨?_, ?_, ?_, by decide⟩ <;>
    simp [deserializeShape, deserializeAnyDispatch, AttributeValue.empty]

/-- C3 (amended): only the character and byte targets perform a direct field
check with a shape-specific message (String Value Expected (Char), Byte
Vector Value Expected); boolean, numeric-width, string and record targets
forward to self-describing dispatch, so the all-absent value fails for them
with the generic Supported Value Expected. -/
theorem direct_field_checks_char_bytes_only {F : Type} (parseF : String → Option F)
    (ofInt : Int → F) :
    (∀ av : AttributeValue, av.sF = none →
      deserializeCharM av = .error (Error.new "String Value Expected (Char)")) ∧
    (∀ av : AttributeValue, av.bF = none →
      deserializeBytesM av = .error (Error.new "Byte Vector Value Expected")) ∧
    (∀ w : IntWidth, deserializeShape parseF ofInt (Shape.sInt w) AttributeValue.empty =
      .error (Error.new "Supported Value Expected")) ∧
    (deserializeShape parseF ofInt Shape.sBool AttributeValue.empty =
      .error (Error.new "Supported Value Expected")) ∧
    (deserializeShape parseF ofInt Shape.sStr AttributeValue.empty =
      .error (Error.new "Supported Value Expected")) ∧
    (∀ shf : List (String × Shape),
      deserializeShape parseF ofInt (Shape.sStruct shf) AttributeValue.empty =
        .error (Error.new "Supported Value Expected")) := by
  refine ⟨?_, ?_, ?_, ?_, ?_, ?_⟩
  · intro av hs
    rcases av with ⟨b1, n1, s1, by1, nu1, l1, m1⟩
    rcases s1 with _ | sv
    · simp [deserializeCharM]
    · simp [AttributeValue.sF] at hs
  · intro av hb
    rcases av with ⟨b1, n1, s1, by1, nu1, l1, m1⟩
    rcases by1 with _ | bv
    · simp [deserializeBytesM]
    · simp [AttributeValue.bF] at hb
  · intro w
    simp [deserializeShape, deserializeAnyDispatch, AttributeValue.empty]
  · simp [deserializeShape, deserializeAnyDispatch, AttributeValue.empty]
  · simp [deserializeShape, deserializeAnyDispatch, AttributeValue.empty]
  · intro shf
    simp [deserializeShape, deserializeAnyDispatch, AttributeValue.empty]

/-- Witness for C3 (amended): concrete absent-field values for the char and
byte checks. -/
theorem direct_field_checks_char_bytes_only_witness :
    deserializeCharM AttributeValue.nullTrue =
      .error (Error.new "String Value Expected (Char)") ∧
    deserializeBytesM AttributeValue.nullTrue =
      .error (Error.new "Byte Vector Value Expected") ∧
    deserializeShape (fun _ : String => (none : Option Unit)) (fun _ => ())
      (Shape.sInt IntWidth.u8) AttributeValue.empty =
      .error (Error.new "Supported Value Expected") := by
  refine ⟨?_, ?_, ?_⟩
  · exact (direct_field_checks_char_bytes_only
      (fun _ : String => (none : Option Unit)) (fun _ => ())).1 AttributeValue.nullTrue rfl
  · exact (direct_field_checks_char_bytes_only
      (fun _ : String => (none : Option Unit)) (fun _ => ())).2.1 AttributeValue.nullTrue rfl
  · exact (direct_field_checks_char_bytes_only
      (fun _ : String => (none : Option Unit)) (fun _ => ())).2.2.1 IntWidth.u8

-- C1 counterexample: the largest u64 value.

/-- C1 counterexample: the u64 value 2^64 - 1 is of the u64 integer shape
and serializes successfully, but decoding the resulting wire value back at
the u64 shape fails: the signed 64-bit parse overflows, so the value falls
through to the float branch, which the integer target rejects whether or not
the float parse succeeds. -/
theorem u64_max_fails_round_trip :
    hasShape (RustValue.vInt IntWidth.u64 18446744073709551615 : RustValue Unit)
      (Shape.sInt IntWidth.u64) = true ∧
    (serializeVal (fun _ : Unit => "")
      (RustValue.vInt IntWidth.u64 18446744073709551615)).isOk = true ∧
    (Except.bind
      (serializeVal (fun _ : Unit => "") (RustValue.vInt IntWidth.u64 18446744073709551615))
      (deserializeShape (fun _ : String => (none : Option Unit)) (fun _ => ())
        (Shape.sInt IntWidth.u64))).isOk = false := by
  refine ⟨by decide, rfl, ?_⟩
  have hser : serializeVal (fun _ : Unit => "")
      (RustValue.vInt IntWidth.u64 18446744073709551615) =
      .ok (.mk none (some (fmtInt 18446744073709551615)) none none none none none) := rfl
  rw [hser]
  have hp : parseI64 (fmtInt 18446744073709551615) = none := by decide
  show (deserializeShape (fun _ : String => (none : Option Unit)) (fun _ => ())
      (Shape.sInt IntWidth.u64)
      (.mk none (some (fmtInt 18446744073709551615)) none none none none none)).isOk = false
  simp only [deserializeShape, deserializeAnyDispatch, numberVisit, hp]
  rfl

-- Serialization is total on the supported-value universe: every value the
-- visitation protocol can produce has a wire encoding (map keys here are
-- strings, so no failure path of src/ser.rs is reachable).

mutual

theorem serializeVal_ok {F : Type} (fmtF : F → String) :
    ∀ v : RustValue F, ∃ av, serializeVal fmtF v = .ok av
  | .vBool bv => ⟨_, rfl⟩
  | .vInt w k => ⟨_, rfl⟩
  | .vFloat x => ⟨_, rfl⟩
  | .vChar c => ⟨_, rfl⟩
  | .vStr str => ⟨_, rfl⟩
  | .vBytes bs => ⟨_, rfl⟩
  | .vNone => ⟨_, rfl⟩
  | .vSome v => serializeVal_ok fmtF v
  | .vUnit => ⟨_, rfl⟩
  | .vSeq vs => by
    obtain ⟨avs, h⟩ := serializeList_ok fmtF vs
    exact ⟨.mk none none none none none (some avs) none, by simp [serializeVal, h]⟩
  | .vMap entries => by
    obtain ⟨st, h⟩ := serializeMapEntries_ok fmtF entries MapSerState.init
    exact ⟨mapSerEnd st, by simp [serializeVal, h]⟩
  | .vStruct fields => by
    obtain ⟨fs, h⟩ := serializeFields_ok fmtF fields []
    exact ⟨.mk none none none none none none (some fs), by simp [serializeVal, h]⟩
  | .vUnitVariant t => ⟨_, rfl⟩
  | .vNewtypeVariant t v => by
    obtain ⟨av, h⟩ := serializeVal_ok fmtF v
    exact ⟨.mk none none none none none none (some [(t, av)]), by simp [serializeVal, h]⟩
  | .vTupleVariant t vs => by
    obtain ⟨avs, h⟩ := serializeList_ok fmtF vs
    exact ⟨.mk none none none none none none
      (some [(t, .mk none none none none none (some avs) none)]), by simp [serializeVal, h]⟩
  | .vStructVariant t fields => by
    obtain ⟨fs, h⟩ := serializeFields_ok fmtF fields []
    exact ⟨.mk none none none none none none
      (some [(t, .mk none none none none none none (some fs))]), by simp [serializeVal, h]⟩

theorem serializeList_ok {F : Type} (fmtF : F → String) :
    ∀ vs : List (RustValue F), ∃ avs, serializeList fmtF vs = .ok avs
  | [] => ⟨[], rfl⟩
  | v :: rest => by
    obtain ⟨av, hv⟩ := serializeVal_ok fmtF v
    obtain ⟨avs, hr⟩ := serializeList_ok fmtF rest
    exact ⟨av :: avs, by simp [serializeList, hv, hr]⟩

theorem serializeMapEntries_ok {F : Type} (fmtF : F → String) :
    ∀ (es : List (String × RustValue F)) (st : MapSerState),
      ∃ st', serializeMapEntries fmtF es st = .ok st'
  | [], st => ⟨st, rfl⟩
  | (k, v) :: rest, st => by
    obtain ⟨av, hv⟩ := serializeVal_ok fmtF v
    obtain ⟨st', hr⟩ := serializeMapEntries_ok fmtF rest ⟨some k, insertA k av st.values⟩
    refine ⟨st', ?_⟩
    simp [serializeMapEntries, serializeKeyM, serializeValueM, hv, hr]

theorem serializeFields_ok {F : Type} (fmtF : F → String) :
    ∀ (fs : List (String × RustValue F)) (acc : List (String × AttributeValue)),
      ∃ aes, serializeFields fmtF fs acc = .ok aes
  | [], acc => ⟨acc, rfl⟩
  | (k, v) :: rest, acc => by
    obtain ⟨av, hv⟩ := serializeVal_ok fmtF v
    obtain ⟨aes, hr⟩ := serializeFields_ok fmtF rest (insertA k av acc)
    exact ⟨aes, by simp [serializeFields, hv, hr]⟩

end

/-- A value whose `encodesNull` flag is false never serializes to a wire
value with a populated `null` field (every non-null encoding arm of
src/ser.rs leaves `null` absent). -/
theorem serialize_null_free {F : Type} (fmtF : F → String) :
    ∀ (v : RustValue F) (av : AttributeValue), encodesNull v = false →
      serializeVal fmtF v = .ok av → av.nullF = none
  | .vBool bv, av, _, h2 => by
    simp only [serializeVal, Except.ok.injEq] at h2
    subst h2; rfl
  | .vInt w k, av, _, h2 => by
    simp only [serializeVal, Except.ok.injEq] at h2
    subst h2; rfl
  | .vFloat x, av, _, h2 => by
    simp only [serializeVal, Except.ok.injEq] at h2
    subst h2; rfl
  | .vChar c, av, _, h2 => by
    simp only [serializeVal, Except.ok.injEq] at h2
    subst h2; rfl
  | .vStr str, av, _, h2 => by
    simp only [serializeVal, Except.ok.injEq] at h2
    subst h2; rfl
  | .vBytes bs, av, _, h2 => by
    simp only [serializeVal, Except.ok.injEq] at h2
    subst h2; rfl
  | .vNone, av, h1, h2 => by simp [encodesNull] at h1
  | .vUnit, av, h1, h2 => by simp [encodesNull] at h1
  | .vSome v, av, h1, h2 =>
    serialize_null_free fmtF v av (by simpa [encodesNull] using h1) h2
  | .vSeq vs, av, _, h2 => by
    rcases hl : serializeList fmtF vs with e | avs
    · simp only [serializeVal, hl] at h2
      exact Except.noConfusion h2
    · simp only [serializeVal, hl, Except.ok.injEq] at h2
      subst h2; rfl
  | .vMap entries, av, _, h2 => by
    rcases hm : serializeMapEntries fmtF entries MapSerState.init with e | st
    · simp only [serializeVal, hm] at h2
      exact Except.noConfusion h2
    · simp only [serializeVal, hm, Except.ok.injEq] at h2
      subst h2; rfl
  | .vStruct fields, av, _, h2 => by
    rcases hf : serializeFields fmtF fields [] with e | fs
    · simp only [serializeVal, hf] at h2
      exact Except.noConfusion h2
    · simp only [serializeVal, hf, Except.ok.injEq] at h2
      subst h2; rfl
  | .vUnitVariant t, av, _, h2 => by
    simp only [serializeVal, Except.ok.injEq] at h2
    subst h2; rfl
  | .vNewtypeVariant t v, av, _, h2 => by
    rcases hv : serializeVal fmtF v with e | av'
    · simp only [serializeVal, hv] at h2
      exact Except.noConfusion h2
    · simp only [serializeVal, hv, Except.ok.injEq] at h2
      subst h2; rfl
  | .vTupleVariant t vs, av, _, h2 => by
    rcases hl : serializeList fmtF vs with e | avs
    · simp only [serializeVal, hl] at h2
      exact Except.noConfusion h2
    · simp only [serializeVal, hl, Except.ok.injEq] at h2
      subst h2; rfl
  | .vStructVariant t fields, av, _, h2 => by
    rcases hf : serializeFields fmtF fields [] with e | fs
    · simp only [serializeVal, hf] at h2
      exact Except.noConfusion h2
    · simp only [serializeVal, hf, Except.ok.injEq] at h2
      subst h2; rfl

/-- The variant walk of the derived enum visitor lands on the variant found
by first-occurrence tag lookup. -/
theorem deserializeVariants_lookup {F : Type} (parseF : String → Option F) (ofInt : Int → F) :
    ∀ (variants : List (String × VariantShape)) (tag : String) (value : AttributeValue)
      (vsk : VariantShape), lookupVS tag variants = some vsk →
      deserializeVariants parseF ofInt variants tag value =
        deserializeVariantKind parseF ofInt tag vsk value := by
  intro variants
  induction variants with
  | nil => intro tag value vsk h; simp [lookupVS] at h
  | cons e rest ih =>
    intro tag value vsk h
    rcases e with ⟨nm, vs'⟩
    by_cases hnm : nm = tag
    · subst hnm
      simp [lookupVS] at h
      subst h
      simp [deserializeVariants]
    · simp only [lookupVS, if_neg hnm] at h
      simp [deserializeVariants, hnm, ih tag value vsk h]

theorem lookupA_cons_ne (k nm : String) (a : AttributeValue)
    (entries : List (String × AttributeValue)) (h : ¬ k = nm) :
    lookupA nm ((k, a) :: entries) = lookupA nm entries := by
  simp [lookupA, h]

/-- Record decoding ignores map entries whose key is none of the declared
field names. -/
theorem recFields_skip {F : Type} (parseF : String → Option F) (ofInt : Int → F) :
    ∀ (shf : List (String × Shape)) (nm : String) (a : AttributeValue)
      (entries : List (String × AttributeValue)), ¬ nm ∈ shf.map Prod.fst →
      deserializeRecFields parseF ofInt shf ((nm, a) :: entries) =
        deserializeRecFields parseF ofInt shf entries := by
  intro shf
  induction shf with
  | nil => intro nm a entries _; simp [deserializeRecFields]
  | cons e rest ih =>
    intro nm a entries h
    rcases e with ⟨nm', sh'⟩
    simp only [List.map_cons, List.mem_cons] at h
    push_neg at h
    have hne : ¬ nm = nm' := h.1
    simp only [deserializeRecFields]
    rw [lookupA_cons_ne nm nm' a entries hne, ih nm a entries h.2]

-- Lifting element-wise encodings through the compound serializers and
-- readers.

theorem listEnc_ser_dec {F : Type} (fmtF : F → String) (parseF : String → Option F)
    (ofInt : Int → F) (esh : Shape) :
    ∀ (vs : List (RustValue F)) (avs : List AttributeValue),
      ListEnc fmtF parseF ofInt esh vs avs →
      serializeList fmtF vs = .ok avs ∧ deserializeList parseF ofInt esh avs = .ok vs := by
  intro vs
  induction vs with
  | nil =>
    intro avs h
    cases avs with
    | nil => exact ⟨rfl, by simp [deserializeList]⟩
    | cons a ar => exact absurd h (by simp [ListEnc])
  | cons v vr ih =>
    intro avs h
    cases avs with
    | nil => exact absurd h (by simp [ListEnc])
    | cons a ar =>
      have h' : EncodesTo fmtF parseF ofInt esh v a ∧
          ListEnc fmtF parseF ofInt esh vr ar := h
      obtain ⟨⟨hser, hdec⟩, hrest⟩ := h'
      obtain ⟨hs, hd⟩ := ih ar hrest
      exact ⟨by simp [serializeList, hser, hs], by simp [deserializeList, hdec, hd]⟩

theorem tupleEnc_ser_dec {F : Type} (fmtF : F → String) (parseF : String → Option F)
    (ofInt : Int → F) :
    ∀ (shs : List Shape) (vs : List (RustValue F)) (avs : List AttributeValue),
      TupleEnc fmtF parseF ofInt shs vs avs →
      serializeList fmtF vs = .ok avs ∧
        deserializeTupleList parseF ofInt shs avs = .ok vs := by
  intro shs
  induction shs with
  | nil =>
    intro vs avs h
    cases vs with
    | nil =>
      cases avs with
      | nil => exact ⟨rfl, by simp [deserializeTupleList]⟩
      | cons a ar => exact absurd h (by simp [TupleEnc])
    | cons v vr => exact absurd h (by simp [TupleEnc])
  | cons sh shr ih =>
    intro vs avs h
    cases vs with
    | nil => exact absurd h (by simp [TupleEnc])
    | cons v vr =>
      cases avs with
      | nil => exact absurd h (by simp [TupleEnc])
      | cons a ar =>
        have h' : EncodesTo fmtF parseF ofInt sh v a ∧
            TupleEnc fmtF parseF ofInt shr vr ar := h
        obtain ⟨⟨hser, hdec⟩, hrest⟩ := h'
        obtain ⟨hs, hd⟩ := ih vr ar hrest
        exact ⟨by simp [serializeList, hser, hs],
          by simp [deserializeTupleList, hdec, hd]⟩

theorem entriesEnc_dec {F : Type} (fmtF : F → String) (parseF : String → Option F)
    (ofInt : Int → F) (vsh : Shape) :
    ∀ (es : List (String × RustValue F)) (aes : List (String × AttributeValue)),
      EntriesEnc fmtF parseF ofInt vsh es aes →
      deserializeMapValues parseF ofInt vsh aes = .ok es := by
  intro es
  induction es with
  | nil =>
    intro aes h
    cases aes with
    | nil => simp [deserializeMapValues]
    | cons a ar => exact absurd h (by simp [EntriesEnc])
  | cons e er ih =>
    intro aes h
    rcases e with ⟨k, v⟩
    cases aes with
    | nil => exact absurd h (by simp [EntriesEnc])
    | cons a ar =>
      rcases a with ⟨k2, a⟩
      have h' : k2 = k ∧ EncodesTo fmtF parseF ofInt vsh v a ∧
          EntriesEnc fmtF parseF ofInt vsh er ar := h
      obtain ⟨hk, ⟨_, hdec⟩, hrest⟩ := h'
      subst k2
      simp [deserializeMapValues, hdec, ih ar hrest]

theorem entriesEnc_ser {F : Type} (fmtF : F → String) (parseF : String → Option F)
    (ofInt : Int → F) (vsh : Shape) :
    ∀ (es : List (String × RustValue F)) (aes : List (String × AttributeValue)),
      EntriesEnc fmtF parseF ofInt vsh es aes → nodupKeys es = true →
      ∀ st : MapSerState, (∀ k ∈ es.map Prod.fst, ¬ k ∈ st.values.map Prod.fst) →
      ∃ kfin, serializeMapEntries fmtF es st = .ok ⟨kfin, st.values ++ aes⟩ := by
  intro es
  induction es with
  | nil =>
    intro aes h _ st _
    cases aes with
    | nil => exact ⟨st.key, by simp [serializeMapEntries]⟩
    | cons a ar => exact absurd h (by simp [EntriesEnc])
  | cons e er ih =>
    intro aes h hnd st hfresh
    rcases e with ⟨k, v⟩
    cases aes with
    | nil => exact absurd h (by simp [EntriesEnc])
    | cons a ar =>
      rcases a with ⟨k2, a⟩
      have h' : k2 = k ∧ EncodesTo fmtF parseF ofInt vsh v a ∧
          EntriesEnc fmtF parseF ofInt vsh er ar := h
      obtain ⟨hk, ⟨hser, _⟩, hrest⟩ := h'
      subst k2
      simp only [nodupKeys, Bool.and_eq_true, Bool.not_eq_true'] at hnd
      obtain ⟨hcont, hnd'⟩ := hnd
      have hknotin : ¬ k ∈ er.map Prod.fst := of_decide_eq_false hcont
      have hkfresh : ¬ k ∈ st.values.map Prod.fst :=
        hfresh k (by simp)
      have hins : insertA k a st.values = st.values ++ [(k, a)] :=
        insertA_fresh st.values k a hkfresh
      have hfresh' : ∀ k' ∈ er.map Prod.fst,
          ¬ k' ∈ (st.values ++ [(k, a)]).map Prod.fst := by
        intro k' hk'
        have hne : k' ≠ k := fun hEq => hknotin (hEq ▸ hk')
        have hnotst : ¬ k' ∈ st.values.map Prod.fst := hfresh k' (by simp [hk'])
        simp [hnotst, hne]
      obtain ⟨kfin, hrec⟩ := ih ar hrest hnd' ⟨some k, st.values ++ [(k, a)]⟩ hfresh'
      refine ⟨kfin, ?_⟩
      simp only [serializeMapEntries, serializeKeyM, serializeValueM, hser, hins]
      simpa [List.append_assoc] using hrec

theorem fieldsEnc_names {F : Type} (fmtF : F → String) (parseF : String → Option F)
    (ofInt : Int → F) :
    ∀ (shf : List (String × Shape)) (fs : List (String × RustValue F))
      (aes : List (String × AttributeValue)), FieldsEnc fmtF parseF ofInt shf fs aes →
      fs.map Prod.fst = shf.map Prod.fst ∧ aes.map Prod.fst = shf.map Prod.fst := by
  intro shf
  induction shf with
  | nil =>
    intro fs aes h
    cases fs with
    | nil =>
      cases aes with
      | nil => simp
      | cons a ar => exact absurd h (by simp [FieldsEnc])
    | cons f fr => exact absurd h (by simp [FieldsEnc])
  | cons e shr ih =>
    intro fs aes h
    rcases e with ⟨nm, sh⟩
    cases fs with
    | nil => exact absurd h (by simp [FieldsEnc])
    | cons f fr =>
      rcases f with ⟨k, v⟩
      cases aes with
      | nil => exact absurd h (by simp [FieldsEnc])
      | cons a ar =>
        rcases a with ⟨k2, a⟩
        have h' : k = nm ∧ k2 = nm ∧ EncodesTo fmtF parseF ofInt sh v a ∧
            FieldsEnc fmtF parseF ofInt shr fr ar := h
        obtain ⟨hk, hk2, _, hrest⟩ := h'
        obtain ⟨h1, h2⟩ := ih fr ar hrest
        simp [hk, hk2, h1, h2]

theorem fieldsEnc_ser {F : Type} (fmtF : F → String) (parseF : String → Option F)
    (ofInt : Int → F) :
    ∀ (shf : List (String × Shape)) (fs : List (String × RustValue F))
      (aes : List (String × AttributeValue)), FieldsEnc fmtF parseF ofInt shf fs aes →
      nodupKeys fs = true →
      ∀ acc : List (String × AttributeValue),
        (∀ k ∈ fs.map Prod.fst, ¬ k ∈ acc.map Prod.fst) →
        serializeFields fmtF fs acc = .ok (acc ++ aes) := by
  intro shf
  induction shf with
  | nil =>
    intro fs aes h _ acc _
    cases fs with
    | nil =>
      cases aes with
      | nil => simp [serializeFields]
      | cons a ar => exact absurd h (by simp [FieldsEnc])
    | cons f fr => exact absurd h (by simp [FieldsEnc])
  | cons e shr ih =>
    intro fs aes h hnd acc hfresh
    rcases e with ⟨nm, sh⟩
    cases fs with
    | nil => exact absurd h (by simp [FieldsEnc])
    | cons f fr =>
      rcases f with ⟨k, v⟩
      cases aes with
      | nil => exact absurd h (by simp [FieldsEnc])
      | cons a ar =>
        rcases a with ⟨k2, a⟩
        have h' : k = nm ∧ k2 = nm ∧ EncodesTo fmtF parseF ofInt sh v a ∧
            FieldsEnc fmtF parseF ofInt shr fr ar := h
        obtain ⟨hk, hk2, ⟨hser, _⟩, hrest⟩ := h'
        subst nm
        subst k2
        simp only [nodupKeys, Bool.and_eq_true, Bool.not_eq_true'] at hnd
        obtain ⟨hcont, hnd'⟩ := hnd
        have hknotin : ¬ k ∈ fr.map Prod.fst := of_decide_eq_false hcont
        have hkfresh : ¬ k ∈ acc.map Prod.fst := hfresh k (by simp)
        have hins : insertA k a acc = acc ++ [(k, a)] := insertA_fresh acc k a hkfresh
        have hfresh' : ∀ k' ∈ fr.map Prod.fst,
            ¬ k' ∈ (acc ++ [(k, a)]).map Prod.fst := by
          intro k' hk'
          have hne : k' ≠ k := fun hEq => hknotin (hEq ▸ hk')
          have hnotacc : ¬ k' ∈ acc.map Prod.fst := hfresh k' (by simp [hk'])
          simp [hnotacc, hne]
        have hrec := ih fr ar hrest hnd' (acc ++ [(k, a)]) hfresh'
        simp only [serializeFields, hser, hins]
        simpa [List.append_assoc] using hrec

theorem fieldsEnc_dec {F : Type} (fmtF : F → String) (parseF : String → Option F)
    (ofInt : Int → F) :
    ∀ (shf : List (String × Shape)) (fs : List (String × RustValue F))
      (aes : List (String × AttributeValue)), FieldsEnc fmtF parseF ofInt shf fs aes →
      nodupKeys fs = true →
      deserializeRecFields parseF ofInt shf aes = .ok fs := by
  intro shf
  induction shf with
  | nil =>
    intro fs aes h _
    cases fs with
    | nil =>
      cases aes with
      | nil => simp [deserializeRecFields]
      | cons a ar => exact absurd h (by simp [FieldsEnc])
    | cons f fr => exact absurd h (by simp [FieldsEnc])
  | cons e shr ih =>
    intro fs aes h hnd
    rcases e with ⟨nm, sh⟩
    cases fs with
    | nil => exact absurd h (by simp [FieldsEnc])
    | cons f fr =>
      rcases f with ⟨k, v⟩
      cases aes with
      | nil => exact absurd h (by simp [FieldsEnc])
      | cons a ar =>
        rcases a with ⟨k2, a⟩
        have h' : k = nm ∧ k2 = nm ∧ EncodesTo fmtF parseF ofInt sh v a ∧
            FieldsEnc fmtF parseF ofInt shr fr ar := h
        obtain ⟨hk, hk2, ⟨_, hdec⟩, hrest⟩ := h'
        subst nm
        subst k2
        simp only [nodupKeys, Bool.and_eq_true, Bool.not_eq_true'] at hnd
        obtain ⟨hcont, hnd'⟩ := hnd
        have hknotin : ¬ k ∈ fr.map Prod.fst := of_decide_eq_false hcont
        have hnm : ¬ k ∈ shr.map Prod.fst := by
          rw [← (fieldsEnc_names fmtF parseF ofInt shr fr ar hrest).1]
          exact hknotin
        have hlook : lookupA k ((k, a) :: ar) = some a := by simp [lookupA]
        simp only [deserializeRecFields, hlook, hdec,
          recFields_skip parseF ofInt shr k a ar hnm, ih fr ar hrest hnd']

-- The round-trip induction: every well-shaped, round-trippable value has a
-- wire encoding that decodes back to it.  Mutual over the value structure,
-- mirroring the typing predicates.

mutual

theorem roundTripVal {F : Type} (fmtF : F → String) (parseF : String → Option F)
    (ofInt : Int → F) (hfmt : ∀ x, parseI64 (fmtF x) = none)
    (hparse : ∀ x, parseF (fmtF x) = some x) :
    ∀ (v : RustValue F) (sh : Shape), hasShape v sh = true → rtOK v = true →
      ∃ av, EncodesTo fmtF parseF ofInt sh v av
  | .vBool bv, sh, h1, _ => by
    cases sh
    case sBool => exact ⟨.mk (some bv) none none none none none none, rfl,
      by simp [deserializeShape, deserializeAnyDispatch]⟩
    all_goals exact Bool.noConfusion h1
  | .vInt w k, sh, h1, h2 => by
    cases sh
    case sInt w' =>
      have hb : (decide (w = w') && decide (w.lo ≤ k) && decide (k ≤ w.hi)) = true := h1
      simp only [Bool.and_eq_true, decide_eq_true_eq] at hb
      obtain ⟨⟨hw, hlo⟩, hhi⟩ := hb
      subst w'
      have hk63 : k < 2 ^ 63 := by
        have hb2 : decide (k < 2 ^ 63) = true := h2
        simpa using hb2
      have hlo63 : -(2 ^ 63) ≤ k := by
        have hlow : -(2 ^ 63) ≤ w.lo := by cases w <;> norm_num [IntWidth.lo]
        omega
      refine ⟨.mk none (some (fmtInt k)) none none none none none, rfl, ?_⟩
      simp only [deserializeShape, deserializeAnyDispatch, numberVisit,
        parseI64_fmtInt k hlo63 hk63]
      simp [hlo, hhi]
    all_goals exact Bool.noConfusion h1
  | .vFloat x, sh, h1, _ => by
    cases sh
    case sFloat =>
      exact ⟨.mk none (some (fmtF x)) none none none none none, rfl, by
        simp [deserializeShape, deserializeAnyDispatch, numberVisit, hfmt x, hparse x]⟩
    all_goals exact Bool.noConfusion h1
  | .vChar c, sh, h1, _ => by
    cases sh
    case sChar =>
      exact ⟨.mk none none (some (String.mk [c])) none none none none, rfl, by
        simp [deserializeShape, deserializeCharM]⟩
    all_goals exact Bool.noConfusion h1
  | .vStr str, sh, h1, _ => by
    cases sh
    case sStr =>
      exact ⟨.mk none none (some str) none none none none, rfl, by
        simp [deserializeShape, deserializeAnyDispatch]⟩
    all_goals exact Bool.noConfusion h1
  | .vBytes bs, sh, h1, _ => by
    cases sh
    case sBytes =>
      exact ⟨.mk none none none (some bs) none none none, rfl, by
        simp [deserializeShape, deserializeBytesM]⟩
    all_goals exact Bool.noConfusion h1
  | .vUnit, sh, h1, _ => by
    cases sh
    case sUnit =>
      exact ⟨AttributeValue.nullTrue, rfl, by
        simp [deserializeShape, deserializeAnyDispatch, AttributeValue.nullTrue]⟩
    all_goals exact Bool.noConfusion h1
  | .vNone, sh, h1, _ => by
    cases sh
    case sOption inner =>
      exact ⟨AttributeValue.nullTrue, rfl,
        by simp [deserializeShape, AttributeValue.nullTrue]⟩
    all_goals exact Bool.noConfusion h1
  | .vSome v, sh, h1, h2 => by
    cases sh
    case sOption inner =>
      have h1' : hasShape v inner = true := h1
      have h2' : (!encodesNull v && rtOK v) = true := h2
      simp only [Bool.and_eq_true, Bool.not_eq_true'] at h2'
      obtain ⟨hnn, hrt⟩ := h2'
      obtain ⟨av, hser, hdec⟩ := roundTripVal fmtF parseF ofInt hfmt hparse v inner h1' hrt
      have hnull : av.nullF = none := serialize_null_free fmtF v av hnn hser
      refine ⟨av, hser, ?_⟩
      rcases av with ⟨b1, n1, s1, by1, nu1, l1, m1⟩
      have hnu : nu1 = none := by simpa [AttributeValue.nullF] using hnull
      subst hnu
      simp only [deserializeShape, hdec]
    all_goals exact Bool.noConfusion h1
  | .vSeq vs, sh, h1, h2 => by
    cases sh
    case sSeq esh =>
      obtain ⟨avs, henc⟩ := roundTripList fmtF parseF ofInt hfmt hparse vs esh h1 h2
      obtain ⟨hs, hd⟩ := listEnc_ser_dec fmtF parseF ofInt esh vs avs henc
      exact ⟨.mk none none none none none (some avs) none,
        by simp [serializeVal, hs], by simp [deserializeShape, hd]⟩
    case sTuple shs =>
      obtain ⟨avs, henc⟩ := roundTripTuple fmtF parseF ofInt hfmt hparse vs shs h1 h2
      obtain ⟨hs, hd⟩ := tupleEnc_ser_dec fmtF parseF ofInt shs vs avs henc
      exact ⟨.mk none none none none none (some avs) none,
        by simp [serializeVal, hs], by simp [deserializeShape, hd]⟩
    all_goals exact Bool.noConfusion h1
  | .vMap entries, sh, h1, h2 => by
    cases sh
    case sMap vsh =>
      have h1' : (nodupKeys entries && entriesHaveShape entries vsh) = true := h1
      simp only [Bool.and_eq_true] at h1'
      obtain ⟨hnd, hsh⟩ := h1'
      obtain ⟨aes, henc⟩ := roundTripEntries fmtF parseF ofInt hfmt hparse entries vsh hsh h2
      obtain ⟨kfin, hser⟩ := entriesEnc_ser fmtF parseF ofInt vsh entries aes henc hnd
        MapSerState.init (by intro k hk; simp [MapSerState.init])
      refine ⟨.mk none none none none none none (some aes), ?_, ?_⟩
      · have hser' : serializeMapEntries fmtF entries MapSerState.init =
            .ok ⟨kfin, aes⟩ := by simpa [MapSerState.init] using hser
        simp [serializeVal, hser', mapSerEnd]
      · simp [deserializeShape, entriesEnc_dec fmtF parseF ofInt vsh entries aes henc]
    all_goals exact Bool.noConfusion h1
  | .vStruct fields, sh, h1, h2 => by
    cases sh
    case sStruct shf =>
      have h1' : (nodupKeys fields && fieldsHaveShape fields shf) = true := h1
      simp only [Bool.and_eq_true] at h1'
      obtain ⟨hnd, hsh⟩ := h1'
      obtain ⟨aes, henc⟩ := roundTripFields fmtF parseF ofInt hfmt hparse fields shf hsh h2
      have hser := fieldsEnc_ser fmtF parseF ofInt shf fields aes henc hnd [] (by simp)
      refine ⟨.mk none none none none none none (some aes), ?_, ?_⟩
      · simp [serializeVal, hser]
      · simp [deserializeShape, fieldsEnc_dec fmtF parseF ofInt shf fields aes henc hnd]
    all_goals exact Bool.noConfusion h1
  | .vUnitVariant t, sh, h1, _ => by
    cases sh
    case sEnum variants =>
      have h1' : (match lookupVS t variants with
        | some .vsUnit => true
        | _ => false) = true := h1
      rcases hvs : lookupVS t variants with _ | vsk
      · rw [hvs] at h1'; exact Bool.noConfusion h1'
      · cases vsk with
        | vsUnit =>
          refine ⟨.mk none none none none none none (some [(t, AttributeValue.nullTrue)]),
            rfl, ?_⟩
          simp only [deserializeShape, deserializeEnumDispatch,
            deserializeVariants_lookup parseF ofInt variants t AttributeValue.nullTrue _ hvs]
          simp [deserializeVariantKind, unitVariantM, AttributeValue.nullTrue]
        | vsNewtype sh' => rw [hvs] at h1'; exact Bool.noConfusion h1'
        | vsTuple shs => rw [hvs] at h1'; exact Bool.noConfusion h1'
        | vsStruct shf => rw [hvs] at h1'; exact Bool.noConfusion h1'
    all_goals exact Bool.noConfusion h1
  | .vNewtypeVariant t v, sh, h1, h2 => by
    cases sh
    case sEnum variants =>
      have h1' : (match lookupVS t variants with
        | some (.vsNewtype sh') => hasShape v sh'
        | _ => false) = true := h1
      have h2' : rtOK v = true := h2
      rcases hvs : lookupVS t variants with _ | vsk
      · rw [hvs] at h1'; exact Bool.noConfusion h1'
      · cases vsk with
        | vsNewtype sh' =>
          rw [hvs] at h1'
          have hsh : hasShape v sh' = true := h1'
          obtain ⟨av, hser, hdec⟩ := roundTripVal fmtF parseF ofInt hfmt hparse v sh' hsh h2'
          refine ⟨.mk none none none none none none (some [(t, av)]),
            by simp [serializeVal, hser], ?_⟩
          simp only [deserializeShape, deserializeEnumDispatch,
            deserializeVariants_lookup parseF ofInt variants t av _ hvs]
          simp [deserializeVariantKind, hdec]
        | vsUnit => rw [hvs] at h1'; exact Bool.noConfusion h1'
        | vsTuple shs => rw [hvs] at h1'; exact Bool.noConfusion h1'
        | vsStruct shf => rw [hvs] at h1'; exact Bool.noConfusion h1'
    all_goals exact Bool.noConfusion h1
  | .vTupleVariant t vs, sh, h1, h2 => by
    cases sh
    case sEnum variants =>
      have h1' : (match lookupVS t variants with
        | some (.vsTuple shs) => tupleHasShape vs shs
        | _ => false) = true := h1
      have h2' : rtList vs = true := h2
      rcases hvs : lookupVS t variants with _ | vsk
      · rw [hvs] at h1'; exact Bool.noConfusion h1'
      · cases vsk with
        | vsTuple shs =>
          rw [hvs] at h1'
          have hsh : tupleHasShape vs shs = true := h1'
          obtain ⟨avs, henc⟩ := roundTripTuple fmtF parseF ofInt hfmt hparse vs shs hsh h2'
          obtain ⟨hs, hd⟩ := tupleEnc_ser_dec fmtF parseF ofInt shs vs avs henc
          refine ⟨.mk none none none none none none
            (some [(t, .mk none none none none none (some avs) none)]),
            by simp [serializeVal, hs], ?_⟩
          simp only [deserializeShape, deserializeEnumDispatch,
            deserializeVariants_lookup parseF ofInt variants t
              (.mk none none none none none (some avs) none) _ hvs]
          simp [deserializeVariantKind, hd]
        | vsUnit => rw [hvs] at h1'; exact Bool.noConfusion h1'
        | vsNewtype sh' => rw [hvs] at h1'; exact Bool.noConfusion h1'
        | vsStruct shf => rw [hvs] at h1'; exact Bool.noConfusion h1'
    all_goals exact Bool.noConfusion h1
  | .vStructVariant t fields, sh, h1, h2 => by
    cases sh
    case sEnum variants =>
      have h1' : (match lookupVS t variants with
        | some (.vsStruct shf) => nodupKeys fields && fieldsHaveShape fields shf
        | _ => false) = true := h1
      have h2' : rtEntries fields = true := h2
      rcases hvs : lookupVS t variants with _ | vsk
      · rw [hvs] at h1'; exact Bool.noConfusion h1'
      · cases vsk with
        | vsStruct shf =>
          rw [hvs] at h1'
          have h1'' : (nodupKeys fields && fieldsHaveShape fields shf) = true := h1'
          simp only [Bool.and_eq_true] at h1''
          obtain ⟨hnd, hsh⟩ := h1''
          obtain ⟨aes, henc⟩ :=
            roundTripFields fmtF parseF ofInt hfmt hparse fields shf hsh h2'
          have hser := fieldsEnc_ser fmtF parseF ofInt shf fields aes henc hnd [] (by simp)
          refine ⟨.mk none none none none none none
            (some [(t, .mk none none none none none none (some aes))]),
            by simp [serializeVal, hser], ?_⟩
          simp only [deserializeShape, deserializeEnumDispatch,
            deserializeVariants_lookup parseF ofInt variants t
              (.mk none none none none none none (some aes)) _ hvs]
          simp [deserializeVariantKind,
            fieldsEnc_dec fmtF parseF ofInt shf fields aes henc hnd]
        | vsUnit => rw [hvs] at h1'; exact Bool.noConfusion h1'
        | vsNewtype sh' => rw [hvs] at h1'; exact Bool.noConfusion h1'
        | vsTuple shs => rw [hvs] at h1'; exact Bool.noConfusion h1'
    all_goals exact Bool.noConfusion h1

theorem roundTripList {F : Type} (fmtF : F → String) (parseF : String → Option F)
    (ofInt : Int → F) (hfmt : ∀ x, parseI64 (fmtF x) = none)
    (hparse : ∀ x, parseF (fmtF x) = some x) :
    ∀ (vs : List (RustValue F)) (esh : Shape), listHasShape vs esh = true →
      rtList vs = true → ∃ avs, ListEnc fmtF parseF ofInt esh vs avs
  | [], _, _, _ => ⟨[], trivial⟩
  | v :: vr, esh, h1, h2 => by
    have h1' : (hasShape v esh && listHasShape vr esh) = true := h1
    have h2' : (rtOK v && rtList vr) = true := h2
    simp only [Bool.and_eq_true] at h1' h2'
    obtain ⟨av, henc⟩ := roundTripVal fmtF parseF ofInt hfmt hparse v esh h1'.1 h2'.1
    obtain ⟨avs, hrest⟩ := roundTripList fmtF parseF ofInt hfmt hparse vr esh h1'.2 h2'.2
    exact ⟨av :: avs, henc, hrest⟩

theorem roundTripTuple {F : Type} (fmtF : F → String) (parseF : String → Option F)
    (ofInt : Int → F) (hfmt : ∀ x, parseI64 (fmtF x) = none)
    (hparse : ∀ x, parseF (fmtF x) = some x) :
    ∀ (vs : List (RustValue F)) (shs : List Shape), tupleHasShape vs shs = true →
      rtList vs = true → ∃ avs, TupleEnc fmtF parseF ofInt shs vs avs
  | [], [], _, _ => ⟨[], trivial⟩
  | [], _ :: _, h1, _ => Bool.noConfusion h1
  | _ :: _, [], h1, _ => Bool.noConfusion h1
  | v :: vr, sh :: shr, h1, h2 => by
    have h1' : (hasShape v sh && tupleHasShape vr shr) = true := h1
    have h2' : (rtOK v && rtList vr) = true := h2
    simp only [Bool.and_eq_true] at h1' h2'
    obtain ⟨av, henc⟩ := roundTripVal fmtF parseF ofInt hfmt hparse v sh h1'.1 h2'.1
    obtain ⟨avs, hrest⟩ := roundTripTuple fmtF parseF ofInt hfmt hparse vr shr h1'.2 h2'.2
    exact ⟨av :: avs, henc, hrest⟩

theorem roundTripEntries {F : Type} (fmtF : F → String) (parseF : String → Option F)
    (ofInt : Int → F) (hfmt : ∀ x, parseI64 (fmtF x) = none)
    (hparse : ∀ x, parseF (fmtF x) = some x) :
    ∀ (es : List (String × RustValue F)) (vsh : Shape), entriesHaveShape es vsh = true →
      rtEntries es = true → ∃ aes, EntriesEnc fmtF parseF ofInt vsh es aes
  | [], _, _, _ => ⟨[], trivial⟩
  | (k, v) :: er, vsh, h1, h2 => by
    have h1' : (hasShape v vsh && entriesHaveShape er vsh) = true := h1
    have h2' : (rtOK v && rtEntries er) = true := h2
    simp only [Bool.and_eq_true] at h1' h2'
    obtain ⟨av, henc⟩ := roundTripVal fmtF parseF ofInt hfmt hparse v vsh h1'.1 h2'.1
    obtain ⟨aes, hrest⟩ := roundTripEntries fmtF parseF ofInt hfmt hparse er vsh h1'.2 h2'.2
    exact ⟨(k, av) :: aes, rfl, henc, hrest⟩

theorem roundTripFields {F : Type} (fmtF : F → String) (parseF : String → Option F)
    (ofInt : Int → F) (hfmt : ∀ x, parseI64 (fmtF x) = none)
    (hparse : ∀ x, parseF (fmtF x) = some x) :
    ∀ (fs : List (String × RustValue F)) (shf : List (String × Shape)),
      fieldsHaveShape fs shf = true → rtEntries fs = true →
      ∃ aes, FieldsEnc fmtF parseF ofInt shf fs aes
  | [], [], _, _ => ⟨[], trivial⟩
  | [], _ :: _, h1, _ => Bool.noConfusion h1
  | _ :: _, [], h1, _ => Bool.noConfusion h1
  | (k, v) :: fr, (nm, sh) :: shr, h1, h2 => by
    have h1' : (decide (k = nm) && hasShape v sh && fieldsHaveShape fr shr) = true := h1
    simp only [Bool.and_eq_true, decide_eq_true_eq] at h1'
    obtain ⟨⟨hknm, hsh⟩, hrest1⟩ := h1'
    have h2' : (rtOK v && rtEntries fr) = true := h2
    simp only [Bool.and_eq_true] at h2'
    obtain ⟨av, henc⟩ := roundTripVal fmtF parseF ofInt hfmt hparse v sh hsh h2'.1
    obtain ⟨aes, hrest⟩ := roundTripFields fmtF parseF ofInt hfmt hparse fr shr hrest1 h2'.2
    exact ⟨(nm, av) :: aes, hknm, rfl, henc, hrest⟩

end

/-- C1 (amended): serialization never fails on the supported-value universe,
and decode(encode(v)) = v at the value's shape, provided every integer leaf
admits a signed 64-bit parse (excluded: u64 values above 2^63 - 1) and no
present optional directly wraps a value encoding as the bare null flag. -/
theorem round_trip_supported_shapes {F : Type} (fmtF : F → String)
    (parseF : String → Option F) (ofInt : Int → F)
    (hfmt : ∀ x, parseI64 (fmtF x) = none)
    (hparse : ∀ x, parseF (fmtF x) = some x)
    (v : RustValue F) (sh : Shape) :
    (∃ av, serializeVal fmtF v = .ok av) ∧
    (hasShape v sh = true → rtOK v = true →
      Except.bind (serializeVal fmtF v) (deserializeShape parseF ofInt sh) = .ok v) := by
  constructor
  · exact serializeVal_ok fmtF v
  · intro h1 h2
    obtain ⟨av, hser, hdec⟩ := roundTripVal fmtF parseF ofInt hfmt hparse v sh h1 h2
    rw [hser]
    exact hdec

/-- Witness for C1 (amended): a record with an optional boolean field and a
32-bit integer field round-trips through the wire format. -/
theorem round_trip_supported_shapes_witness :
    Except.bind
      (serializeVal (fun _ : Unit => "x")
        (RustValue.vStruct [("a", .vSome (.vBool true)), ("b", .vInt .i32 5)]))
      (deserializeShape (fun str => if str = "x" then some () else none) (fun _ => ())
        (Shape.sStruct [("a", .sOption .sBool), ("b", .sInt .i32)])) =
      .ok (RustValue.vStruct [("a", .vSome (.vBool true)), ("b", .vInt .i32 5)]) :=
  (round_trip_supported_shapes (fun _ : Unit => "x")
    (fun str => if str = "x" then some () else none) (fun _ => ())
    (fun _ => show parseI64 "x" = none by decide)
    (fun _ => show (if "x" = "x" then some () else none) = some () by decide)
    (RustValue.vStruct [("a", .vSome (.vBool true)), ("b", .vInt .i32 5)])
    (Shape.sStruct [("a", .sOption .sBool), ("b", .sInt .i32)])).2 (by decide) (by decide)


end SerRusoto
